import Mathlib

/-!
The query matchers and the argument shuffling of go-sqlmock.

A shallow embedding of `query.go` (`ErrShuffle.ShuffleArgs`, `stripQuery`,
`QueryMatcherRegexp`, `QueryMatcherEqual`) and of the structural matcher
`QueryMatcherSqlParser` of `examples/basic/basic_test.go`.

Conventions of the embedding:

* a Go `string` is a Lean `String` (its list of code points);
* a Go slice is a `List`; an in-place update of a slice is modelled by the
  function returning the new contents;
* a Go `map[K]V` is an association list read with `GoMap.get` and written
  with `GoMap.set`;
* a Go `int` is an `Int`; positions produced by `range` are `Nat`;
* a run-time panic is the `Except.error` branch of `Except Panic _`.
-/

namespace Sqlmock

/-! ## Values, maps, panics -/

/-- The dynamic values of `driver.Value` (an empty interface). `null` is the
zero value `nil`, which `make` stores in every slot of a fresh slice.
`float64` carries the IEEE-754 binary64 bit pattern. -/
inductive Value where
  | null
  | int64 (n : Int)
  | float64 (bits : Nat)
  | bool (b : Bool)
  | bytes (b : List Nat)
  | string (s : String)
  deriving DecidableEq, Repr

/-- Run-time faults of the Go runtime that the modelled code can raise. -/
inductive Panic where
  | indexOutOfRange (index : Int) (length : Nat)
  | nilDereference
  deriving DecidableEq, Repr

deriving instance DecidableEq for Except

/-- A Go map as an association list; the first pair with a key is its entry. -/
abbrev GoMap (κ : Type) (ν : Type) := List (κ × ν)

/-- Map read `v, ok := m[k]`: `none` stands for `ok = false`. -/
def GoMap.get {κ ν : Type} [DecidableEq κ] : GoMap κ ν → κ → Option ν
  | [], _ => none
  | (k', v) :: rest, k => if k' = k then some v else GoMap.get rest k

/-- Map write `m[k] = v`: overwrite the entry of `k`, or add one. -/
def GoMap.set {κ ν : Type} [DecidableEq κ] : GoMap κ ν → κ → ν → GoMap κ ν
  | [], k, v => [(k, v)]
  | (k', v') :: rest, k, v =>
    if k' = k then (k, v) :: rest else (k', v') :: GoMap.set rest k v

/-! ## `ErrShuffle` (query.go, lines 10-34) -/

/-- Go `type ErrShuffle struct { Shuffle map[int]int }`. -/
structure ErrShuffle where
  Shuffle : GoMap Int Int
  deriving DecidableEq, Repr

/-- Slice store `s[i] = x` with Go's bounds check. -/
def sliceStore {α : Type} (s : List α) (i : Int) (x : α) : Except Panic (List α) :=
  if 0 ≤ i ∧ i < (s.length : Int) then .ok (s.set i.toNat x)
  else .error (Panic.indexOutOfRange i s.length)

/-- The first loop of `ShuffleArgs`, `for oldPos, x := range args`, started at
position `oldPos` with the remaining elements of `args` and the current
contents of `shuffled`. -/
def shuffleLoop (Shuffle : GoMap Int Int) :
    Nat → List Value → List Value → Except Panic (List Value)
  | _, [], shuffled => .ok shuffled
  | oldPos, x :: rest, shuffled =>
    match GoMap.get Shuffle (oldPos : Int) with
    | some newPos =>
      match sliceStore shuffled newPos x with
      | .ok shuffled' => shuffleLoop Shuffle (oldPos + 1) rest shuffled'
      | .error p => .error p
    | none =>
      match sliceStore shuffled (oldPos : Int) x with
      | .ok shuffled' => shuffleLoop Shuffle (oldPos + 1) rest shuffled'
      | .error p => .error p

/-- The second loop of `ShuffleArgs`, `for i, x := range shuffled { args[i] = x }`,
started at position `i` with the remaining elements of `shuffled`. -/
def copyLoop : Nat → List Value → List Value → Except Panic (List Value)
  | _, [], args => .ok args
  | i, x :: rest, args =>
    match sliceStore args (i : Int) x with
    | .ok args' => copyLoop (i + 1) rest args'
    | .error p => .error p

/-- Go `func (e *ErrShuffle) ShuffleArgs(args []driver.Value)`: the result is the
contents of `args` when the call returns, or the panic it raises. -/
def ErrShuffle.ShuffleArgs (e : ErrShuffle) (args : List Value) :
    Except Panic (List Value) :=
  match shuffleLoop e.Shuffle 0 args (List.replicate args.length Value.null) with
  | .ok shuffled => copyLoop 0 shuffled args
  | .error p => .error p

/-- The position at which `ShuffleArgs` stores the value found at `i`:
`Shuffle[i]` when the map has an entry for `i`, and `i` otherwise. -/
def target (Shuffle : GoMap Int Int) (i : Nat) : Int :=
  match GoMap.get Shuffle (i : Int) with
  | some newPos => newPos
  | none => (i : Int)

/-! ## `stripQuery` (query.go, lines 36-41) -/

/-- The Perl class `\s` of Go's regexp syntax, `[\t\n\f\r ]`: the characters
matched by the package-level `re = regexp.MustCompile("\\s+")`. -/
def isPerlSpace (c : Char) : Bool :=
  c == '\t' || c == '\n' || c == '\x0c' || c == '\r' || c == ' '

/-- Go `unicode.IsSpace`: in Latin-1 the characters `\t \n \v \f \r`, space,
U+0085 and U+00A0; above Latin-1 the `White_Space` range table. -/
def isSpace (r : Char) : Bool :=
  if r.toNat ≤ 0xFF then
    r == '\t' || r == '\n' || r == '\x0b' || r == '\x0c' || r == '\r' || r == ' '
      || r.toNat == 0x85 || r.toNat == 0xA0
  else
    r.toNat == 0x1680 || (0x2000 ≤ r.toNat && r.toNat ≤ 0x200A)
      || r.toNat == 0x2028 || r.toNat == 0x2029 || r.toNat == 0x202F
      || r.toNat == 0x205F || r.toNat == 0x3000

/-- The scan of `re.ReplaceAllString(q, " ")` for `re = \s+`: every maximal run
of `\s` characters is replaced by one space. `inRun` tells that the previous
character belonged to the run being replaced. -/
def replaceSpaceRuns : List Char → Bool → List Char
  | [], _ => []
  | c :: cs, inRun =>
    if isPerlSpace c then
      if inRun then replaceSpaceRuns cs true else ' ' :: replaceSpaceRuns cs true
    else c :: replaceSpaceRuns cs false

/-- The call `re.ReplaceAllString(q, " ")` with `re = regexp.MustCompile("\\s+")`. -/
def ReplaceAllString (q : String) : String :=
  ⟨replaceSpaceRuns q.data false⟩

/-- Go `strings.TrimSpace`: leading and trailing characters with `unicode.IsSpace`
are removed. -/
def TrimSpace (s : String) : String :=
  ⟨(s.data.dropWhile isSpace).rdropWhile isSpace⟩

/-- Go `func stripQuery(q string) (s string)`. -/
def stripQuery (q : String) : String :=
  TrimSpace (ReplaceAllString q)

/-- Whitespace-separated words, as the specification describes the canonical
form: the pieces of `q` between characters of the class `ws`, empty pieces
left out. -/
def specWords (ws : Char → Bool) (q : List Char) : List (List Char) :=
  (q.splitOnP ws).filter (fun w => !w.isEmpty)

/-- The canonical form in the specification's words: the whitespace-separated
words of `q` joined by single spaces. -/
def specNormalize (ws : Char → Bool) (q : String) : String :=
  ⟨List.intercalate [' '] (specWords ws q.data)⟩

/-- What a maximal run becomes when runs of white space are collapsed: a run
of characters of the class `ws` becomes one space, any other run is kept. -/
def collapseRun (ws : Char → Bool) (run : List Char) : List Char :=
  match run with
  | [] => []
  | c :: _ => if ws c then [' '] else run

/-- Every maximal run of characters of the class `ws` collapsed into a single
space, in the specification's words: the text is cut into its maximal runs of
characters that are all inside `ws` or all outside it, and every run is
replaced by what `collapseRun` makes of it. -/
def specCollapse (ws : Char → Bool) (q : List Char) : List Char :=
  ((q.splitBy (fun a b => ws a == ws b)).map (collapseRun ws)).flatten

/-- Leading and trailing characters of the class `ws` removed. -/
def specTrim (ws : Char → Bool) (l : List Char) : List Char :=
  ((l.dropWhile ws).reverse.dropWhile ws).reverse

/-! ## Errors and the textual matchers (query.go, lines 43-95) -/

/-- The `error` values the matchers return. `errorString` is the value of
`fmt.Errorf`, `syntaxError` the `*syntax.Error` of `regexp.Compile`, and
`errShuffle` a `*ErrShuffle`. -/
inductive GoError where
  | errorString (msg : String)
  | syntaxError (msg : String)
  | errShuffle (e : ErrShuffle)
  deriving DecidableEq, Repr

/-- The type test `err.(*ErrShuffle)` a caller uses to tell the shuffle signal
from an ordinary failure. -/
def GoError.isShuffle : GoError → Bool
  | .errShuffle _ => true
  | _ => false

/-- The matcher `QueryMatcherEqual.Match`: `none` is the `nil` error. -/
def QueryMatcherEqual (expectedSQL actualSQL : String) : Option GoError :=
  let expect := stripQuery expectedSQL
  let actual := stripQuery actualSQL
  if actual ≠ expect then
    some (.errorString
      ("actual sql: \"" ++ actual ++ "\" does not equal to expected \"" ++ expect ++ "\""))
  else none

/-- What the matchers use of package `regexp` of the Go standard library: the
type of compiled expressions, `regexp.Compile` (the error is the message of
the `*syntax.Error`) and `(*Regexp).MatchString`, which reports whether the
string contains any match of the expression. -/
structure RegexpPkg where
  Regexp : Type
  Compile : String → Except String Regexp
  MatchString : Regexp → String → Bool

/-- The matcher `QueryMatcherRegexp.Match`. `re.String()` is the source text the
expression was compiled from, that is `expect`. -/
def QueryMatcherRegexp (R : RegexpPkg) (expectedSQL actualSQL : String) : Option GoError :=
  let expect := stripQuery expectedSQL
  let actual := stripQuery actualSQL
  match R.Compile expect with
  | .error err => some (.syntaxError err)
  | .ok re =>
    if !R.MatchString re actual then
      some (.errorString
        ("could not match actual sql: \"" ++ actual ++ "\" with expected regexp \""
          ++ expect ++ "\""))
    else none

/-! ## The syntax tree of package `sqlparser`, as far as the structural matcher
inspects it -/

/-- Type `sqlparser.ValType`: the kind of a literal; `ValArg` is a bind variable. -/
inductive ValType where
  | StrVal | IntVal | FloatVal | HexNum | HexVal | ValArg | BitVal
  deriving DecidableEq, Repr

/-- Type `sqlparser.ColName`: `Name` is the text `Name.String()` returns; the table
qualifier is kept as written. -/
structure ColName where
  Name : String
  Qualifier : String
  deriving DecidableEq, Repr

/-- Type `sqlparser.Expr`: the matcher only tells a `*SQLVal` from every other
node, so the other nodes are represented by their rendering. -/
inductive Expr where
  | SQLVal (Typ : ValType) (Val : String)
  | other (text : String)
  deriving DecidableEq, Repr

/-- Type `sqlparser.UpdateExpr`. -/
structure UpdateExpr where
  Name : ColName
  Expr : Expr
  deriving DecidableEq, Repr

/-- Type `sqlparser.Update`. `Exprs` is a slice of pointers (`UpdateExprs`), `none`
being the nil pointer. The parts the matcher never inspects (comments, table
expressions, `WHERE`, `ORDER BY`, `LIMIT`) are represented by the text
`Format` prints for them. -/
structure Update where
  Comments : String
  TableExprs : String
  Exprs : List (Option UpdateExpr)
  Where : String
  OrderBy : String
  Limit : String
  deriving DecidableEq, Repr

/-- Type `sqlparser.Statement`: the matcher only tells `*Update` from the rest. -/
inductive Statement where
  | Update (node : Update)
  | Select
  | Other
  deriving DecidableEq, Repr

/-- What the structural matcher uses of package `sqlparser`: `Parse` (the
error is the diagnostic of the parser) and the text `Format` prints for a
column name and for a literal. -/
structure SqlParserPkg where
  Parse : String → Except String Statement
  formatColName : ColName → String
  formatSQLVal : ValType → String → String

/-- Method `(*UpdateExpr).Format`: prints `name = expr`; a nil receiver faults at
`node.Name`. -/
def UpdateExpr.Format (P : SqlParserPkg) : Option UpdateExpr → Except Panic String
  | none => .error Panic.nilDereference
  | some node =>
    .ok (P.formatColName node.Name ++ " = " ++
      match node.Expr with
      | .SQLVal typ val => P.formatSQLVal typ val
      | .other text => text)

/-- Method `UpdateExprs.Format`: the clauses separated by `", "`; `sep` is the
separator printed before the next clause. -/
def UpdateExprs.Format (P : SqlParserPkg) :
    List (Option UpdateExpr) → String → Except Panic String
  | [], _ => .ok ""
  | n :: rest, sep =>
    match UpdateExpr.Format P n with
    | .error p => .error p
    | .ok s =>
      match UpdateExprs.Format P rest ", " with
      | .error p => .error p
      | .ok t => .ok (sep ++ s ++ t)

/-- Method `(*Update).Format`: `update <comments><tables> set <exprs><where><order><limit>`. -/
def Update.Format (P : SqlParserPkg) (node : Update) : Except Panic String :=
  match UpdateExprs.Format P node.Exprs "" with
  | .error p => .error p
  | .ok exprs =>
    .ok ("update " ++ node.Comments ++ node.TableExprs ++ " set " ++ exprs
      ++ node.Where ++ node.OrderBy ++ node.Limit)

/-! ## `QueryMatcherSqlParser` (examples/basic/basic_test.go, lines 82-135) -/

/-- The loop of lines 98-100, `for i, expr := range actual.Exprs`, filling
`actualSetClausePosition`. -/
def positionLoop :
    Nat → List (Option UpdateExpr) → GoMap String Int → Except Panic (GoMap String Int)
  | _, [], m => .ok m
  | _, none :: _, _ => .error Panic.nilDereference
  | i, some expr :: rest, m => positionLoop (i + 1) rest (GoMap.set m expr.Name.Name (i : Int))

/-- The variables the loop of lines 106-117 updates. -/
structure ShuffleState where
  shuffled : Bool
  shuffle : GoMap Int Int
  expectedSetClause : List (Option UpdateExpr)
  deriving DecidableEq, Repr

/-- The loop of lines 106-117, `for oldPos, setClause := range expected.Exprs`.
The assignment to `v.Val` changes the clause that is stored in
`expectedSetClause`; the clause is also an element of `expected.Exprs`, which
line 120 replaces whenever such an assignment took place. -/
def clauseLoop (actualSetClausePosition : GoMap String Int) :
    Nat → List (Option UpdateExpr) → ShuffleState → Except Panic ShuffleState
  | _, [], st => .ok st
  | _, none :: _, _ => .error Panic.nilDereference
  | oldPos, some setClause :: rest, st =>
    match GoMap.get actualSetClausePosition setClause.Name.Name with
    | some newPos =>
      if (oldPos : Int) ≠ newPos then
        match setClause.Expr with
        | .SQLVal typ _ =>
          let v := Expr.SQLVal typ (":v" ++ toString (newPos + 1))
          match sliceStore st.expectedSetClause newPos (some { setClause with Expr := v }) with
          | .error p => .error p
          | .ok expectedSetClause =>
            clauseLoop actualSetClausePosition (oldPos + 1) rest
              { shuffled := true
                shuffle := GoMap.set st.shuffle (oldPos : Int) newPos
                expectedSetClause := expectedSetClause }
        | .other _ => clauseLoop actualSetClausePosition (oldPos + 1) rest st
      else clauseLoop actualSetClausePosition (oldPos + 1) rest st
    | none => clauseLoop actualSetClausePosition (oldPos + 1) rest st

/-- The guards of lines 107-109 for the clause found at `oldPos`: its new
position when the clause is moved, `none` when the loop leaves it alone. -/
def moveOf (actualSetClausePosition : GoMap String Int) (oldPos : Nat)
    (setClause : UpdateExpr) : Option Int :=
  match GoMap.get actualSetClausePosition setClause.Name.Name with
  | some newPos =>
    if (oldPos : Int) ≠ newPos then
      match setClause.Expr with
      | .SQLVal _ _ => some newPos
      | .other _ => none
    else none
  | none => none

/-- The clause as line 111 leaves it when it is moved to `newPos`. -/
def rewritten (setClause : UpdateExpr) (newPos : Int) : UpdateExpr :=
  match setClause.Expr with
  | .SQLVal typ _ => { setClause with Expr := .SQLVal typ (":v" ++ toString (newPos + 1)) }
  | .other _ => setClause

/-- Lines 96-132: the body run when both statements are `*Update` with the
same number of clauses. `none` means that control reaches line 134. -/
def structuralMatch (P : SqlParserPkg) (expected actual : Update) :
    Except Panic (Option GoError) :=
  match positionLoop 0 actual.Exprs [] with
  | .error p => .error p
  | .ok actualSetClausePosition =>
    match clauseLoop actualSetClausePosition 0 expected.Exprs
        { shuffled := false
          shuffle := []
          expectedSetClause := List.replicate expected.Exprs.length none } with
    | .error p => .error p
    | .ok st =>
      let expected' : Update :=
        if st.shuffled then { expected with Exprs := st.expectedSetClause } else expected
      match Update.Format P expected' with
      | .error p => .error p
      | .ok buf1 =>
        match Update.Format P actual with
        | .error p => .error p
        | .ok buf2 =>
          if buf1 = buf2 ∧ st.shuffled = true then
            .ok (some (.errShuffle { Shuffle := st.shuffle }))
          else .ok none

/-- The matcher `QueryMatcherSqlParser.Match`: the returned error (`none` is `nil`), or the
panic the call raises. -/
def QueryMatcherSqlParser (R : RegexpPkg) (P : SqlParserPkg)
    (expectedSQL actualSQL : String) : Except Panic (Option GoError) :=
  match P.Parse expectedSQL with
  | .error err => .ok (some (.errorString ("expectedSQL parse error: " ++ err)))
  | .ok parsedExpected =>
    match P.Parse actualSQL with
    | .error err => .ok (some (.errorString ("actualSQL parse error: " ++ err)))
    | .ok parsedActual =>
      match parsedExpected, parsedActual with
      | .Update expected, .Update actual =>
        if expected.Exprs.length = actual.Exprs.length then
          match structuralMatch P expected actual with
          | .error p => .error p
          | .ok (some err) => .ok (some err)
          | .ok none => .ok (QueryMatcherRegexp R expectedSQL actualSQL)
        else .ok (QueryMatcherRegexp R expectedSQL actualSQL)
      | _, _ => .ok (QueryMatcherRegexp R expectedSQL actualSQL)

/-! ## Reference behaviour of package `regexp` on a fragment of its syntax

The closed statements below are evaluated with this instance of `RegexpPkg`.
It covers the patterns built from literal characters, `.`, escaped punctuation,
the Perl classes `\d \s \w \D \S \W` and the postfix operators `* + ?` (also
in their non-greedy spelling); a pattern that uses anything else is answered
with an error. -/

/-- Regular expressions of the fragment. -/
inductive Regex where
  | fail
  | eps
  | lit (c : Char)
  | dot
  | perl (cls : Char)
  | cat (r s : Regex)
  | alt (r s : Regex)
  | star (r : Regex)
  deriving DecidableEq, Repr

/-- Membership in a Perl class: `\d` is `[0-9]`, `\s` is `[\t\n\f\r ]`, `\w` is
`[0-9A-Za-z_]`; the capital letter negates. -/
def perlClass (cls c : Char) : Bool :=
  let digit := '0' ≤ c && c ≤ '9'
  let word := digit || ('a' ≤ c && c ≤ 'z') || ('A' ≤ c && c ≤ 'Z') || c == '_'
  if cls == 'd' then digit
  else if cls == 'D' then !digit
  else if cls == 's' then isPerlSpace c
  else if cls == 'S' then !isPerlSpace c
  else if cls == 'w' then word
  else !word

/-- The characters with a meaning of their own in the syntax. -/
def isMeta (c : Char) : Bool :=
  "\\.+*?()|[]{}^$".data.contains c

/-- The parser of the fragment. `done` is the expression read so far without
its last piece, `last` the last piece, and `quant` tells whether `last` already
carries a repetition operator (1) and its non-greedy mark (2). -/
def parsePattern : List Char → Regex → Option Regex → Nat → Except String Regex
  | [], done, last, _ =>
    .ok (match last with
      | some r => Regex.cat done r
      | none => done)
  | '\\' :: [], _, _, _ => .error "error parsing regexp: trailing backslash at end of expression"
  | '\\' :: x :: cs, done, last, _ =>
    let done' := match last with
      | some r => Regex.cat done r
      | none => done
    if "dswDSW".data.contains x then parsePattern cs done' (some (.perl x)) 0
    else if x.toNat < 128 && !x.isAlphanum then parsePattern cs done' (some (.lit x)) 0
    else .error "error parsing regexp: escape sequence outside the fragment"
  | c :: cs, done, last, quant =>
    if c == '*' || c == '+' || c == '?' then
      match last with
      | none => .error "error parsing regexp: missing argument to repetition operator"
      | some r =>
        if quant = 0 then
          let r' := if c == '*' then Regex.star r
            else if c == '+' then Regex.cat r (Regex.star r)
            else Regex.alt Regex.eps r
          parsePattern cs done (some r') 1
        else if c == '?' && quant = 1 then parsePattern cs done last 2
        else .error "error parsing regexp: invalid nested repetition operator"
    else
      let done' := match last with
        | some r => Regex.cat done r
        | none => done
      if c == '.' then parsePattern cs done' (some .dot) 0
      else if isMeta c then .error "error parsing regexp: operator outside the fragment"
      else parsePattern cs done' (some (.lit c)) 0

/-- Does the expression match the empty string? -/
def Regex.nullable : Regex → Bool
  | .fail => false
  | .eps => true
  | .lit _ => false
  | .dot => false
  | .perl _ => false
  | .cat r s => r.nullable && s.nullable
  | .alt r s => r.nullable || s.nullable
  | .star _ => true

/-- Concatenation, with the trivial cases simplified. -/
def Regex.mkCat : Regex → Regex → Regex
  | .fail, _ => .fail
  | _, .fail => .fail
  | .eps, s => s
  | r, .eps => r
  | r, s => .cat r s

/-- Alternation, with the trivial cases simplified. -/
def Regex.mkAlt : Regex → Regex → Regex
  | .fail, s => s
  | r, .fail => r
  | r, s => .alt r s

/-- The derivative: what remains to be matched after reading `c`. -/
def Regex.deriv : Regex → Char → Regex
  | .fail, _ => .fail
  | .eps, _ => .fail
  | .lit a, c => if a = c then .eps else .fail
  | .dot, c => if c = '\n' then .fail else .eps
  | .perl cls, c => if perlClass cls c then .eps else .fail
  | .cat r s, c =>
    if r.nullable then Regex.mkAlt (Regex.mkCat (r.deriv c) s) (s.deriv c)
    else Regex.mkCat (r.deriv c) s
  | .alt r s, c => Regex.mkAlt (r.deriv c) (s.deriv c)
  | .star r, c => Regex.mkCat (r.deriv c) (.star r)

/-- Does a beginning of the text match the expression? -/
def Regex.matchStart : Regex → List Char → Bool
  | r, [] => r.nullable
  | r, c :: cs => r.nullable || (r != .fail && (r.deriv c).matchStart cs)

/-- Does the text contain a match of the expression? -/
def Regex.matchAnywhere (r : Regex) : List Char → Bool
  | [] => r.nullable
  | c :: cs => r.matchStart (c :: cs) || r.matchAnywhere cs

/-- The reference instance of `RegexpPkg`. -/
def stdRegexp : RegexpPkg where
  Regexp := Regex
  Compile := fun expr => parsePattern expr.data .eps none 0
  MatchString := fun re s => re.matchAnywhere s.data

/-! ## Reference behaviour of package `sqlparser` on a fragment of SQL

The closed statements below are evaluated with this instance of
`SqlParserPkg`. It covers
`UPDATE t [JOIN u ON c = v] SET c = v, ... [WHERE c = v]` and
`SELECT c FROM t [WHERE c = v]`
with plain identifiers and `v` a `?` or an integer; any other text is answered
with a syntax error, whose position and token are not modelled. -/

/-- Tokens of the fragment. A `?` is numbered by the tokenizer and becomes the
bind variable `:v1`, `:v2`, ... -/
inductive Token where
  | ID (s : String)
  | KW (lowered : String)
  | INTEGRAL (s : String)
  | VALUE_ARG (s : String)
  | sym (c : Char)
  deriving DecidableEq, Repr

/-- Reserved words of the tokenizer that an identifier of the fragment must
not be. -/
def keywords : List String :=
  ["all", "alter", "and", "as", "asc", "between", "by", "case", "create", "default",
   "delete", "desc", "distinct", "drop", "else", "end", "exists", "false", "for", "from",
   "group", "having", "if", "in", "index", "insert", "into", "is", "join", "key", "left",
   "like", "limit", "not", "null", "on", "or", "order", "select", "set", "table", "then",
   "to", "true", "union", "update", "values", "when", "where"]

/-- A finished word: an integer, a keyword or an identifier. -/
def lexWord (w : List Char) : Except String Token :=
  match w with
  | [] => .error "syntax error"
  | c :: _ =>
    if c.isDigit then
      if w.all Char.isDigit then .ok (.INTEGRAL ⟨w⟩) else .error "syntax error"
    else if keywords.contains (String.mk (w.map Char.toLower)) then
      .ok (.KW (String.mk (w.map Char.toLower)))
    else .ok (.ID ⟨w⟩)

/-- The tokenizer: `acc` is the word being read, in reverse, and `n` the
number of `?` seen so far. -/
def lex : List Char → List Char → Nat → Except String (List Token)
  | [], acc, _ =>
    if acc.isEmpty then .ok []
    else match lexWord acc.reverse with
      | .error e => .error e
      | .ok t => .ok [t]
  | c :: cs, acc, n =>
    if c.isAlphanum || c == '_' then lex cs (c :: acc) n
    else
      let word : Except String (List Token) :=
        if acc.isEmpty then .ok []
        else match lexWord acc.reverse with
          | .error e => .error e
          | .ok t => .ok [t]
      match word with
      | .error e => .error e
      | .ok pre =>
        if c == ' ' || c == '\t' || c == '\n' || c == '\r' then
          match lex cs [] n with
          | .error e => .error e
          | .ok rest => .ok (pre ++ rest)
        else if c == '?' then
          match lex cs [] (n + 1) with
          | .error e => .error e
          | .ok rest => .ok (pre ++ Token.VALUE_ARG (":v" ++ toString (n + 1)) :: rest)
        else if c == '=' || c == ',' then
          match lex cs [] n with
          | .error e => .error e
          | .ok rest => .ok (pre ++ Token.sym c :: rest)
        else .error "syntax error"

/-- Function `formatID`: an identifier is printed as written unless it has to be
quoted. -/
def formatID (original : String) : String :=
  let plain := match original.data with
    | [] => true
    | c :: cs => (c.isAlpha || c == '_') && cs.all (fun x => x.isAlphanum || x == '_')
  if plain && !keywords.contains (String.mk (original.data.map Char.toLower)) then original
  else "`" ++ String.mk (original.data.flatMap (fun c => if c == '`' then ['`', '`'] else [c]))
    ++ "`"

/-- Method `(*ColName).Format`. -/
def formatColName (c : ColName) : String :=
  (if c.Qualifier = "" then "" else formatID c.Qualifier ++ ".") ++ formatID c.Name

/-- Method `(*SQLVal).Format` for numbers and bind variables, which are printed as
they are; a string literal is printed between quotes. -/
def formatSQLVal (typ : ValType) (val : String) : String :=
  match typ with
  | .StrVal => "'" ++ val ++ "'"
  | .HexVal => "X'" ++ val ++ "'"
  | .BitVal => "B'" ++ val ++ "'"
  | _ => val

/-- A value of the fragment: a bind variable or an integer. -/
def parseValue : Token → Option Expr
  | .INTEGRAL s => some (.SQLVal .IntVal s)
  | .VALUE_ARG s => some (.SQLVal .ValArg s)
  | _ => none

/-- The list after `SET`: `c = v, c = v, ...`; returns the clauses and the
tokens that follow. -/
def parseUpdateList : List Token → Except String (List (Option UpdateExpr) × List Token)
  | .ID c :: .sym '=' :: v :: .sym ',' :: more =>
    match parseValue v with
    | none => .error "syntax error"
    | some e =>
      match parseUpdateList more with
      | .error err => .error err
      | .ok (exprs, rest) => .ok (some ⟨⟨c, ""⟩, e⟩ :: exprs, rest)
  | .ID c :: .sym '=' :: v :: rest =>
    match parseValue v with
    | none => .error "syntax error"
    | some e => .ok ([some ⟨⟨c, ""⟩, e⟩], rest)
  | _ => .error "syntax error"

/-- The optional `WHERE c = v` that ends a statement, as `Format` prints it. -/
def parseWhere : List Token → Except String String
  | [] => .ok ""
  | [.KW "where", .ID c, .sym '=', v] =>
    match parseValue v with
    | some (.SQLVal typ val) =>
      .ok (" where " ++ formatColName ⟨c, ""⟩ ++ " = " ++ formatSQLVal typ val)
    | _ => .error "syntax error"
  | _ => .error "syntax error"

/-- The statements of the fragment. -/
def parseStatement : List Token → Except String Statement
  | .KW "update" :: .ID t :: .KW "set" :: rest =>
    match parseUpdateList rest with
    | .error err => .error err
    | .ok (exprs, rest') =>
      match parseWhere rest' with
      | .error err => .error err
      | .ok w =>
        .ok (.Update
          { Comments := "", TableExprs := formatID t, Exprs := exprs,
            Where := w, OrderBy := "", Limit := "" })
  | .KW "update" :: .ID t :: .KW "join" :: .ID u :: .KW "on" :: .ID c :: .sym '=' :: v ::
      .KW "set" :: rest =>
    match parseValue v with
    | some (.SQLVal typ val) =>
      match parseUpdateList rest with
      | .error err => .error err
      | .ok (exprs, rest') =>
        match parseWhere rest' with
        | .error err => .error err
        | .ok w =>
          .ok (.Update
            { Comments := ""
              TableExprs := formatID t ++ " join " ++ formatID u ++ " on "
                ++ formatColName ⟨c, ""⟩ ++ " = " ++ formatSQLVal typ val
              Exprs := exprs, Where := w, OrderBy := "", Limit := "" })
    | _ => .error "syntax error"
  | .KW "select" :: .ID _ :: .KW "from" :: .ID _ :: rest =>
    match parseWhere rest with
    | .error err => .error err
    | .ok _ => .ok .Select
  | _ => .error "syntax error"

/-- The reference instance of `SqlParserPkg`. -/
def refSqlParser : SqlParserPkg where
  Parse := fun sql =>
    match lex sql.data [] 0 with
    | .error err => .error err
    | .ok tokens => parseStatement tokens
  formatColName := formatColName
  formatSQLVal := formatSQLVal

/-! # Theorems -/

/-! ## The two loops of `ShuffleArgs` -/

theorem sliceStore_ok {α : Type} (s : List α) (i : Int) (x : α)
    (h0 : 0 ≤ i) (h1 : i < (s.length : Int)) :
    sliceStore s i x = .ok (s.set i.toNat x) := by
  unfold sliceStore
  rw [if_pos ⟨h0, h1⟩]

theorem sliceStore_error {α : Type} (s : List α) (i : Int) (x : α)
    (h : ¬ (0 ≤ i ∧ i < (s.length : Int))) :
    sliceStore s i x = .error (Panic.indexOutOfRange i s.length) := by
  unfold sliceStore
  rw [if_neg h]

/-- One iteration of the first loop stores `x` at the target of `oldPos`. -/
theorem shuffleLoop_cons (S : GoMap Int Int) (oldPos : Nat) (x : Value)
    (rest shuffled : List Value) :
    shuffleLoop S oldPos (x :: rest) shuffled =
      match sliceStore shuffled (target S oldPos) x with
      | .ok shuffled' => shuffleLoop S (oldPos + 1) rest shuffled'
      | .error p => .error p := by
  unfold target
  rw [shuffleLoop]
  cases GoMap.get S (oldPos : Int) <;> rfl

/-- The copy loop overwrites `args` with `shuffled` when the lengths agree. -/
theorem copyLoop_append (rest pre old : List Value) (h : old.length = rest.length) :
    copyLoop pre.length rest (pre ++ old) = .ok (pre ++ rest) := by
  induction rest generalizing pre old with
  | nil =>
    cases old with
    | nil => rfl
    | cons a t => simp at h
  | cons x rest ih =>
    cases old with
    | nil => simp at h
    | cons a t =>
      have hlen : t.length = rest.length := by simpa using h
      rw [copyLoop, sliceStore_ok _ _ _ (by omega) (by simp)]
      have hset : (pre ++ a :: t).set (Int.toNat (pre.length : Int)) x
          = (pre ++ [x]) ++ t := by
        simp [List.set_append]
      simp only [hset]
      have := ih (pre ++ [x]) t hlen
      simpa using this

theorem copyLoop_eq (shuffled args : List Value) (h : shuffled.length = args.length) :
    copyLoop 0 shuffled args = .ok shuffled := by
  have := copyLoop_append shuffled [] args h.symm
  simpa using this

/-- The first loop, when every target position is inside `shuffled`: it
returns, keeps the length, leaves untouched the positions that are no target,
and the last value stored at a position is the one found there. -/
theorem shuffleLoop_spec (S : GoMap Int Int) :
    ∀ (rest : List Value) (k : Nat) (sh : List Value),
      (∀ j, j < rest.length →
        0 ≤ target S (k + j) ∧ target S (k + j) < (sh.length : Int)) →
      ∃ out, shuffleLoop S k rest sh = .ok out ∧ out.length = sh.length ∧
        (∀ p : Nat, (∀ j, j < rest.length → target S (k + j) ≠ (p : Int)) →
          out[p]? = sh[p]?) ∧
        (∀ j, j < rest.length →
          (∀ j', j < j' → j' < rest.length → target S (k + j') ≠ target S (k + j)) →
          out[(target S (k + j)).toNat]? = rest[j]?) := by
  intro rest
  induction rest with
  | nil =>
    intro k sh _
    exact ⟨sh, rfl, rfl, fun _ _ => rfl, fun j hj => absurd hj (by simp)⟩
  | cons x rest ih =>
    intro k sh hrange
    have h0 := hrange 0 (by simp)
    simp only [Nat.add_zero] at h0
    have hshift : ∀ j, j < rest.length →
        0 ≤ target S (k + 1 + j) ∧
          target S (k + 1 + j) < (((sh.set (target S k).toNat x).length : Nat) : Int) := by
      intro j hj
      have := hrange (j + 1) (by simpa using hj)
      have e : k + 1 + j = k + (j + 1) := by omega
      rw [e, List.length_set]
      exact this
    obtain ⟨out, hout, hlen, hkeep, hlast⟩ := ih (k + 1) (sh.set (target S k).toNat x) hshift
    refine ⟨out, ?_, ?_, ?_, ?_⟩
    · rw [shuffleLoop_cons, sliceStore_ok _ _ _ h0.1 h0.2]
      exact hout
    · rw [hlen, List.length_set]
    · intro p hp
      have hp0 : target S k ≠ (p : Int) := by
        have := hp 0 (by simp)
        simpa using this
      have hne : (target S k).toNat ≠ p := by
        intro h
        apply hp0
        rw [← h]
        exact (Int.toNat_of_nonneg h0.1).symm
      rw [hkeep p ?_, List.getElem?_set_ne hne]
      intro j hj
      have := hp (j + 1) (by simpa using hj)
      have e : k + 1 + j = k + (j + 1) := by omega
      rw [e]
      exact this
    · intro j hj hlater
      cases j with
      | zero =>
        simp only [Nat.add_zero, List.getElem?_cons_zero]
        rw [hkeep (target S k).toNat ?_]
        · have hlt : (target S k).toNat < sh.length := by
            have := h0.2
            omega
          simp [hlt]
        · intro j' hj'
          have := hlater (j' + 1) (by omega) (by simpa using hj')
          have e : k + 1 + j' = k + (j' + 1) := by omega
          rw [e, Int.toNat_of_nonneg h0.1]
          simpa using this
      | succ j =>
        have hj2 : j < rest.length := by simpa using hj
        have e : k + (j + 1) = k + 1 + j := by omega
        rw [e, List.getElem?_cons_succ]
        apply hlast j hj2
        intro j' hjj' hj'
        have := hlater (j' + 1) (by omega) (by simpa using hj')
        have e' : k + (j' + 1) = k + 1 + j' := by omega
        rw [e', e] at this
        exact this

/-- The call of `ShuffleArgs` when every target position is inside `args`. -/
theorem ShuffleArgs_spec (S : GoMap Int Int) (args : List Value)
    (hrange : ∀ j, j < args.length →
      0 ≤ target S j ∧ target S j < (args.length : Int)) :
    ∃ out, ErrShuffle.ShuffleArgs ⟨S⟩ args = .ok out ∧ out.length = args.length ∧
      (∀ p : Nat, (∀ j, j < args.length → target S j ≠ (p : Int)) →
        out[p]? = if p < args.length then some Value.null else none) ∧
      (∀ j, j < args.length →
        (∀ j', j < j' → j' < args.length → target S j' ≠ target S j) →
        out[(target S j).toNat]? = args[j]?) := by
  have hr : ∀ j, j < args.length → 0 ≤ target S (0 + j) ∧
      target S (0 + j) < (((List.replicate args.length Value.null).length : Nat) : Int) := by
    intro j hj
    simpa using hrange j hj
  obtain ⟨out, hout, hlen, hkeep, hlast⟩ :=
    shuffleLoop_spec S args 0 (List.replicate args.length Value.null) hr
  have hlen' : out.length = args.length := by simpa using hlen
  refine ⟨out, ?_, hlen', ?_, ?_⟩
  · unfold ErrShuffle.ShuffleArgs
    simp only [hout]
    exact copyLoop_eq out args hlen'
  · intro p hp
    rw [hkeep p (by simpa using hp)]
    by_cases h : p < args.length
    · simp [h, List.getElem?_replicate]
    · simp [h, List.getElem?_replicate]
  · intro j hj hl
    have := hlast j hj (by simpa using hl)
    simpa using this

/-- Under the invariant "positions inside the list, injective, every value
again a key", distinct indices have distinct targets. -/
theorem target_injective (S : GoMap Int Int) (n : Nat)
    (hinj : ∀ i j v, i < n → j < n →
      GoMap.get S (i : Int) = some v → GoMap.get S (j : Int) = some v → i = j)
    (hkey : ∀ i v, i < n → GoMap.get S (i : Int) = some v → (GoMap.get S v).isSome)
    (i j : Nat) (hi : i < n) (hj : j < n) (h : target S i = target S j) : i = j := by
  unfold target at h
  cases hgi : GoMap.get S (i : Int) with
  | none =>
    cases hgj : GoMap.get S (j : Int) with
    | none =>
      rw [hgi, hgj] at h
      exact Int.ofNat_inj.mp h
    | some w =>
      rw [hgi, hgj] at h
      simp only at h
      have := hkey j w hj hgj
      rw [← h, hgi] at this
      simp at this
  | some v =>
    cases hgj : GoMap.get S (j : Int) with
    | none =>
      rw [hgi, hgj] at h
      simp only at h
      have := hkey i v hi hgi
      rw [h, hgj] at this
      simp at this
    | some w =>
      rw [hgi, hgj] at h
      simp only at h
      subst h
      exact hinj i j v hi hj hgi hgj

/-- A list whose entries are those of `args` moved along a bijection of the
positions is a permutation of `args`. -/
theorem perm_of_scatter (args out : List Value) (t : Nat → Nat)
    (hlen : out.length = args.length)
    (hlt : ∀ i, i < args.length → t i < args.length)
    (hinj : ∀ i j, i < args.length → j < args.length → t i = t j → i = j)
    (hget : ∀ i, i < args.length → out[t i]? = args[i]?) :
    out.Perm args := by
  let f : Fin args.length → Fin args.length := fun i => ⟨t i.val, hlt i.val i.isLt⟩
  have hf : Function.Injective f := by
    intro a b hab
    apply Fin.ext
    apply hinj a.val b.val a.isLt b.isLt
    exact congrArg Fin.val hab
  let σ : Equiv.Perm (Fin args.length) :=
    Equiv.ofBijective f (Finite.injective_iff_bijective.mp hf)
  let g : Fin args.length → Value := fun j => out.get ⟨j.val, by rw [hlen]; exact j.isLt⟩
  have e1 : List.ofFn g = out := by
    apply List.ext_getElem (by simp [hlen])
    intro k h1 h2
    simp [g]
  have e2 : List.ofFn (g ∘ σ) = args := by
    apply List.ext_getElem (by simp)
    intro k h1 h2
    have h3 := hget k h2
    have h4 : t k < out.length := by rw [hlen]; exact hlt k h2
    rw [List.getElem?_eq_getElem h4, List.getElem?_eq_getElem h2] at h3
    simp only [List.getElem_ofFn, Function.comp, g, σ, Equiv.ofBijective_apply, f,
      List.get_eq_getElem]
    exact Option.some.inj h3
  have := Equiv.Perm.ofFn_comp_perm σ g
  rw [e1, e2] at this
  exact this.symm

/-! ## Claims about `ShuffleArgs` -/

/-- C1 (as amended). When every target position lies inside `args` and no
later index is stored at the target of `i`, `ShuffleArgs` returns and the value
originally at `i` is found at `Shuffle[i]` if the map has an entry for `i`, and
at position `i` otherwise. -/
theorem ShuffleArgs_positional (S : GoMap Int Int) (args : List Value)
    (hrange : ∀ j, j < args.length →
      0 ≤ target S j ∧ target S j < (args.length : Int))
    (i : Nat) (hi : i < args.length)
    (hlast : ∀ j, i < j → j < args.length → target S j ≠ target S i) :
    ∃ out, ErrShuffle.ShuffleArgs ⟨S⟩ args = .ok out ∧
      (∀ newPos, GoMap.get S (i : Int) = some newPos → out[newPos.toNat]? = args[i]?) ∧
      (GoMap.get S (i : Int) = none → out[i]? = args[i]?) := by
  obtain ⟨out, hout, _, _, hl⟩ := ShuffleArgs_spec S args hrange
  have h := hl i hi hlast
  refine ⟨out, hout, ?_, ?_⟩
  · intro newPos hg
    simpa [target, hg] using h
  · intro hg
    simpa [target, hg] using h

/-- C1, witness: the map of the documented scenario at index 0. -/
theorem ShuffleArgs_positional_witness :
    ∃ out, ErrShuffle.ShuffleArgs ⟨[(0, 2), (1, 0), (2, 1)]⟩
        [.int64 3, .string "book", .float64 0x400C000000000000, .int64 1] = .ok out ∧
      (∀ newPos : Int,
        GoMap.get ([(0, 2), (1, 0), (2, 1)] : GoMap Int Int) ((0 : Nat) : Int) = some newPos →
        out[newPos.toNat]? =
          [Value.int64 3, .string "book", .float64 0x400C000000000000, .int64 1][0]?) ∧
      (GoMap.get ([(0, 2), (1, 0), (2, 1)] : GoMap Int Int) ((0 : Nat) : Int) = none →
        out[0]? =
          [Value.int64 3, .string "book", .float64 0x400C000000000000, .int64 1][0]?) :=
  ShuffleArgs_positional [(0, 2), (1, 0), (2, 1)]
    [.int64 3, .string "book", .float64 0x400C000000000000, .int64 1]
    (by decide) 0 (by decide)
    (by
      intro j h1 h2
      simp only [List.length_cons, List.length_nil] at h2
      interval_cases j <;> decide)

/-- C1, counterexample: with `Shuffle = {0: 1}` and two arguments the value
originally at index 0 is not found at position `Shuffle[0] = 1`; index 1, which
has no entry, overwrites it. -/
theorem ShuffleArgs_positional_counterexample :
    GoMap.get [(0, 1)] ((0 : Nat) : Int) = some 1 ∧
    ErrShuffle.ShuffleArgs ⟨[(0, 1)]⟩ [.string "x", .string "y"]
      = .ok [.null, .string "y"] ∧
    ([Value.null, .string "y"] : List Value)[1]? ≠
      ([Value.string "x", .string "y"] : List Value)[0]? := by
  decide

/-- C2 (as amended). When the positions of `Shuffle` lie inside the list, it is
injective, and every position it assigns is again one of its keys, `ShuffleArgs`
returns a list of the same length that is a permutation of `args`. -/
theorem ShuffleArgs_perm (S : GoMap Int Int) (args : List Value)
    (hpos : ∀ i v, i < args.length → GoMap.get S (i : Int) = some v →
      0 ≤ v ∧ v < (args.length : Int))
    (hinj : ∀ i j v, i < args.length → j < args.length →
      GoMap.get S (i : Int) = some v → GoMap.get S (j : Int) = some v → i = j)
    (hkey : ∀ i v, i < args.length → GoMap.get S (i : Int) = some v →
      (GoMap.get S v).isSome) :
    ∃ out, ErrShuffle.ShuffleArgs ⟨S⟩ args = .ok out ∧
      out.length = args.length ∧ out.Perm args := by
  have hrange : ∀ j, j < args.length →
      0 ≤ target S j ∧ target S j < (args.length : Int) := by
    intro j hj
    unfold target
    cases hg : GoMap.get S (j : Int) with
    | none => simp only; omega
    | some v => exact hpos j v hj hg
  have htinj := target_injective S args.length hinj hkey
  obtain ⟨out, hout, hlen, _, hl⟩ := ShuffleArgs_spec S args hrange
  refine ⟨out, hout, hlen, ?_⟩
  apply perm_of_scatter args out (fun i => (target S i).toNat) hlen
  · intro i hi
    have := hrange i hi
    omega
  · intro i j hi hj h
    apply htinj i j hi hj
    have h1 := hrange i hi
    have h2 := hrange j hj
    omega
  · intro i hi
    apply hl i hi
    intro j hij hj h
    have := htinj j i hj hi h
    omega

/-- C2, witness: the map of the documented scenario. -/
theorem ShuffleArgs_perm_witness :
    ∃ out, ErrShuffle.ShuffleArgs ⟨[(0, 2), (1, 0), (2, 1)]⟩
        [.int64 3, .string "book", .float64 0x400C000000000000, .int64 1] = .ok out ∧
      out.length =
        [Value.int64 3, .string "book", .float64 0x400C000000000000, .int64 1].length ∧
      out.Perm [.int64 3, .string "book", .float64 0x400C000000000000, .int64 1] :=
  ShuffleArgs_perm [(0, 2), (1, 0), (2, 1)]
    [.int64 3, .string "book", .float64 0x400C000000000000, .int64 1]
    (by
      intro i v hi h
      simp only [List.length_cons, List.length_nil] at hi
      interval_cases i <;> simp [GoMap.get] at h <;> subst h <;> decide)
    (by
      intro i j v hi hj h1 h2
      simp only [List.length_cons, List.length_nil] at hi hj
      interval_cases i <;> interval_cases j <;> simp [GoMap.get] at h1 h2 <;> omega)
    (by
      intro i v hi h
      simp only [List.length_cons, List.length_nil] at hi
      interval_cases i <;> simp [GoMap.get] at h <;> subst h <;> decide)

/-- C2, counterexample: `Shuffle = {0: 1}` is injective with its position
inside a two-element list, yet `ShuffleArgs` drops the value `"a"` and leaves
a `nil` in its place: the result is not a permutation of the input. -/
theorem ShuffleArgs_perm_counterexample :
    (∀ (i : Nat) (v : Int), i < 2 →
      GoMap.get ([(0, 1)] : GoMap Int Int) (i : Int) = some v →
      0 ≤ v ∧ v < 2) ∧
    (∀ (i j : Nat) (v : Int), i < 2 → j < 2 →
      GoMap.get ([(0, 1)] : GoMap Int Int) (i : Int) = some v →
      GoMap.get ([(0, 1)] : GoMap Int Int) (j : Int) = some v → i = j) ∧
    ErrShuffle.ShuffleArgs ⟨[(0, 1)]⟩ [.string "a", .string "b"]
      = .ok [.null, .string "b"] ∧
    ¬ List.Perm [Value.null, .string "b"] [Value.string "a", .string "b"] := by
  refine ⟨?_, ?_, by decide, by decide⟩
  · intro i v hi h
    interval_cases i <;> simp [GoMap.get] at h <;> subst h <;> decide
  · intro i j v hi hj h1 h2
    interval_cases i <;> interval_cases j <;> simp [GoMap.get] at h1 h2 <;> omega

/-! ## `stripQuery`: shape of the canonical form -/

theorem isPerlSpace_space : isPerlSpace ' ' = true := by decide

theorem isSpace_space : isSpace ' ' = true := by decide

/-- Inside a run the scan never starts its output with a `\s` character. -/
theorem replaceSpaceRuns_true_head (q : List Char) :
    ∀ c ∈ (replaceSpaceRuns q true).head?, isPerlSpace c = false := by
  induction q with
  | nil => simp [replaceSpaceRuns]
  | cons a q ih =>
    intro c hc
    by_cases ha : isPerlSpace a = true
    · rw [replaceSpaceRuns, if_pos ha, if_pos rfl] at hc
      exact ih c hc
    · rw [replaceSpaceRuns, if_neg ha] at hc
      simp only [List.head?_cons, Option.mem_def, Option.some.injEq] at hc
      subst hc
      simpa using ha

/-- When the next character is no `\s` character the flag is irrelevant. -/
theorem replaceSpaceRuns_flag (q : List Char)
    (h : ∀ c ∈ q.head?, isPerlSpace c = false) :
    replaceSpaceRuns q true = replaceSpaceRuns q false := by
  cases q with
  | nil => rfl
  | cons a q =>
    have ha : ¬ isPerlSpace a = true := by
      have := h a (by simp)
      simp [this]
    rw [replaceSpaceRuns, if_neg ha, replaceSpaceRuns, if_neg ha]

/-- The output of the scan has no two adjacent `\s` characters. -/
theorem replaceSpaceRuns_chain (q : List Char) (b : Bool) :
    List.Chain' (fun x y => ¬ (isPerlSpace x = true ∧ isPerlSpace y = true))
      (replaceSpaceRuns q b) := by
  induction q generalizing b with
  | nil => simp [replaceSpaceRuns]
  | cons a q ih =>
    by_cases ha : isPerlSpace a = true
    · cases b with
      | true =>
        rw [replaceSpaceRuns, if_pos ha, if_pos rfl]
        exact ih true
      | false =>
        rw [replaceSpaceRuns, if_pos ha, if_neg (by simp)]
        rw [List.chain'_cons']
        refine ⟨?_, ih true⟩
        intro y hy hxy
        have := replaceSpaceRuns_true_head q y hy
        rw [this] at hxy
        simp at hxy
    · rw [replaceSpaceRuns, if_neg ha, List.chain'_cons']
      exact ⟨fun y _ hxy => ha hxy.1, ih false⟩

/-- Every `\s` character in the output of the scan is a space. -/
theorem replaceSpaceRuns_mem (q : List Char) (b : Bool) :
    ∀ c ∈ replaceSpaceRuns q b, isPerlSpace c = true → c = ' ' := by
  induction q generalizing b with
  | nil => simp [replaceSpaceRuns]
  | cons a q ih =>
    intro c hc hs
    by_cases ha : isPerlSpace a = true
    · cases b with
      | true =>
        rw [replaceSpaceRuns, if_pos ha, if_pos rfl] at hc
        exact ih true c hc hs
      | false =>
        rw [replaceSpaceRuns, if_pos ha, if_neg (by simp)] at hc
        rcases List.mem_cons.mp hc with h | h
        · exact h
        · exact ih true c h hs
    · rw [replaceSpaceRuns, if_neg ha] at hc
      rcases List.mem_cons.mp hc with h | h
      · subst h
        exact absurd hs ha
      · exact ih false c h hs

/-- The characters of the output come from the input, or are the space. -/
theorem replaceSpaceRuns_subset (q : List Char) (b : Bool) :
    ∀ c ∈ replaceSpaceRuns q b, c ∈ q ∨ c = ' ' := by
  induction q generalizing b with
  | nil => simp [replaceSpaceRuns]
  | cons a q ih =>
    intro c hc
    by_cases ha : isPerlSpace a = true
    · cases b with
      | true =>
        rw [replaceSpaceRuns, if_pos ha, if_pos rfl] at hc
        rcases ih true c hc with h | h
        · exact Or.inl (List.mem_cons_of_mem _ h)
        · exact Or.inr h
      | false =>
        rw [replaceSpaceRuns, if_pos ha, if_neg (by simp)] at hc
        rcases List.mem_cons.mp hc with h | h
        · exact Or.inr h
        · rcases ih true c h with h | h
          · exact Or.inl (List.mem_cons_of_mem _ h)
          · exact Or.inr h
    · rw [replaceSpaceRuns, if_neg ha] at hc
      rcases List.mem_cons.mp hc with h | h
      · exact Or.inl (by rw [h]; exact List.mem_cons_self _ _)
      · rcases ih false c h with h | h
        · exact Or.inl (List.mem_cons_of_mem _ h)
        · exact Or.inr h

/-- A list without adjacent `\s` characters, whose `\s` characters are spaces,
is left unchanged by the scan. -/
theorem replaceSpaceRuns_fixed (l : List Char)
    (hc : List.Chain' (fun x y => ¬ (isPerlSpace x = true ∧ isPerlSpace y = true)) l)
    (hm : ∀ c ∈ l, isPerlSpace c = true → c = ' ') :
    replaceSpaceRuns l false = l := by
  induction l with
  | nil => rfl
  | cons a l ih =>
    rw [List.chain'_cons'] at hc
    have ihl := ih hc.2 (fun c h => hm c (List.mem_cons_of_mem _ h))
    by_cases ha : isPerlSpace a = true
    · rw [replaceSpaceRuns, if_pos ha, if_neg (by simp)]
      have hhead : ∀ c ∈ l.head?, isPerlSpace c = false := by
        intro c hcl
        have := hc.1 c hcl
        by_contra hne
        exact this ⟨ha, by simpa using hne⟩
      rw [replaceSpaceRuns_flag l hhead, ihl, hm a (List.mem_cons_self _ _) ha]
    · rw [replaceSpaceRuns, if_neg ha, ihl]

/-- Trimming on both sides yields a list that neither starts nor ends with a
character of the trimmed class. -/
theorem trim_head (p : Char → Bool) (l : List Char) :
    ∀ c ∈ ((l.dropWhile p).rdropWhile p).head?, p c = false := by
  intro c hc
  have hpre : (l.dropWhile p).rdropWhile p <+: l.dropWhile p := List.rdropWhile_prefix p _
  obtain ⟨t, ht⟩ := hpre
  cases hr : (l.dropWhile p).rdropWhile p with
  | nil => rw [hr] at hc; simp at hc
  | cons a r =>
    rw [hr] at hc ht
    simp only [List.head?_cons, Option.mem_def, Option.some.injEq] at hc
    subst hc
    have h2 := List.head?_dropWhile_not p l
    rw [← ht] at h2
    simpa using h2

theorem trim_last (p : Char → Bool) (l : List Char) :
    ∀ c ∈ ((l.dropWhile p).rdropWhile p).getLast?, p c = false := by
  intro c hc
  cases hr : (l.dropWhile p).rdropWhile p with
  | nil => rw [hr] at hc; simp at hc
  | cons a r =>
    have hne : (l.dropWhile p).rdropWhile p ≠ [] := by rw [hr]; simp
    have h := List.rdropWhile_last_not p (l.dropWhile p) hne
    rw [List.getLast?_eq_getLast _ hne] at hc
    simp only [Option.mem_def, Option.some.injEq] at hc
    rw [← hc]
    simpa using h

/-- Trimming a trimmed list changes nothing. -/
theorem trim_trim (p : Char → Bool) (l : List Char) :
    ((((l.dropWhile p).rdropWhile p).dropWhile p).rdropWhile p)
      = (l.dropWhile p).rdropWhile p := by
  have h1 : ((l.dropWhile p).rdropWhile p).dropWhile p = (l.dropWhile p).rdropWhile p := by
    cases hr : (l.dropWhile p).rdropWhile p with
    | nil => rfl
    | cons a r =>
      have := trim_head p l a (by rw [hr]; simp)
      rw [List.dropWhile_cons_of_neg (by simp [this])]
  rw [h1, List.rdropWhile_idempotent]

/-! ## `stripQuery` and the whitespace-separated words -/

theorem dropWhile_concat_neg (p : Char → Bool) (A : List Char) (c : Char)
    (h : p c = false) : (A ++ [c]).dropWhile p = A.dropWhile p ++ [c] := by
  induction A with
  | nil => simp [List.dropWhile, h]
  | cons a A ih =>
    by_cases ha : p a = true
    · simp [List.dropWhile_cons, ha, ih]
    · simp [List.dropWhile_cons, ha]

theorem dropWhile_concat_pos (p : Char → Bool) (A : List Char) (c : Char)
    (h : p c = true) :
    (A ++ [c]).dropWhile p = if A.dropWhile p = [] then [] else A.dropWhile p ++ [c] := by
  induction A with
  | nil => simp [List.dropWhile, h]
  | cons a A ih =>
    by_cases ha : p a = true
    · simp [List.dropWhile_cons, ha, ih]
    · simp [List.dropWhile_cons, ha]

theorem rdropWhile_cons_neg (p : Char → Bool) (c : Char) (X : List Char)
    (h : p c = false) : (c :: X).rdropWhile p = c :: X.rdropWhile p := by
  unfold List.rdropWhile
  rw [List.reverse_cons, dropWhile_concat_neg p _ c h]
  simp

theorem rdropWhile_cons_pos (p : Char → Bool) (c : Char) (X : List Char)
    (h : p c = true) :
    (c :: X).rdropWhile p = if X.rdropWhile p = [] then [] else c :: X.rdropWhile p := by
  unfold List.rdropWhile
  rw [List.reverse_cons, dropWhile_concat_pos p _ c h]
  by_cases he : List.dropWhile p X.reverse = []
  · simp [he]
  · simp [he]

theorem specWords_cons_pos (ws : Char → Bool) (c : Char) (cs : List Char)
    (h : ws c = true) : specWords ws (c :: cs) = specWords ws cs := by
  unfold specWords
  rw [List.splitOnP_cons, if_pos h]
  simp

theorem specWords_cons_neg (ws : Char → Bool) (c : Char) (cs : List Char)
    (h : ws c = false) (w : List Char) (t : List (List Char))
    (hs : cs.splitOnP ws = w :: t) :
    specWords ws (c :: cs) = (c :: w) :: t.filter (fun w => !w.isEmpty) := by
  unfold specWords
  rw [List.splitOnP_cons, hs]
  simp [h]

theorem specWords_nonempty (ws : Char → Bool) (q : List Char) :
    ∀ w ∈ specWords ws q, w ≠ [] := by
  intro w hw
  unfold specWords at hw
  have := (List.mem_filter.mp hw).2
  intro he
  rw [he] at this
  simp at this

theorem intercalate_cons_cons (c : Char) (w : List Char) (rest : List (List Char)) :
    List.intercalate [' '] ((c :: w) :: rest) = c :: List.intercalate [' '] (w :: rest) := by
  cases rest <;> simp [List.intercalate, List.intersperse]

theorem intercalate_single_cons (c : Char) (F : List (List Char)) (hF : F ≠ []) :
    List.intercalate [' '] ([c] :: F) = c :: ' ' :: List.intercalate [' '] F := by
  cases F with
  | nil => exact absurd rfl hF
  | cons w rest => simp [List.intercalate, List.intersperse]

theorem intercalate_eq_nil (F : List (List Char)) (hne : ∀ w ∈ F, w ≠ [])
    (h : List.intercalate [' '] F = []) : F = [] := by
  cases F with
  | nil => rfl
  | cons w rest =>
    exfalso
    have hw := hne w (List.mem_cons_self _ _)
    cases w with
    | nil => exact hw rfl
    | cons c w =>
      rw [intercalate_cons_cons] at h
      simp at h

/-- Inside a run, the scan followed by trimming on the right yields the words
joined by single spaces, when `unicode.IsSpace` and the class `\s` agree on
the characters of `q`. -/
theorem strip_core (q : List Char) (h : ∀ c ∈ q, isSpace c = isPerlSpace c) :
    (replaceSpaceRuns q true).rdropWhile isSpace
      = List.intercalate [' '] (specWords isSpace q) := by
  induction q with
  | nil => simp [replaceSpaceRuns, specWords, List.rdropWhile, List.intercalate]
  | cons c cs ih =>
    have ihcs := ih (fun x hx => h x (List.mem_cons_of_mem _ hx))
    have hc := h c (List.mem_cons_self _ _)
    by_cases hw : isPerlSpace c = true
    · rw [replaceSpaceRuns, if_pos hw, if_pos rfl, specWords_cons_pos _ _ _ (by rw [hc, hw])]
      exact ihcs
    · have hu : isSpace c = false := by rw [hc]; simpa using hw
      rw [replaceSpaceRuns, if_neg hw, rdropWhile_cons_neg _ _ _ hu]
      cases cs with
      | nil =>
        simp [replaceSpaceRuns, specWords, hu, List.rdropWhile, List.intercalate]
      | cons d ds =>
        have hd := h d (by simp)
        by_cases hwd : isPerlSpace d = true
        · have hud : isSpace d = true := by rw [hd, hwd]
          rw [replaceSpaceRuns, if_pos hwd, if_neg (by simp)]
          rw [replaceSpaceRuns, if_pos hwd, if_pos rfl] at ihcs
          rw [rdropWhile_cons_pos _ _ _ isSpace_space, ihcs]
          have hsplit : (d :: ds).splitOnP isSpace = [] :: ds.splitOnP isSpace := by
            rw [List.splitOnP_cons, if_pos hud]
          rw [specWords_cons_neg _ _ _ hu _ _ hsplit]
          have hsw : specWords isSpace (d :: ds)
              = (ds.splitOnP isSpace).filter (fun w => !w.isEmpty) := by
            rw [specWords_cons_pos _ _ _ hud]
            rfl
          rw [hsw]
          by_cases hF : (ds.splitOnP isSpace).filter (fun w => !w.isEmpty) = []
          · rw [hF]
            simp [List.intercalate]
          · have hne : List.intercalate [' ']
                ((ds.splitOnP isSpace).filter (fun w => !w.isEmpty)) ≠ [] := by
              intro he
              apply hF
              apply intercalate_eq_nil _ _ he
              intro w hw'
              exact specWords_nonempty isSpace ds w hw'
            rw [if_neg hne, intercalate_single_cons _ _ hF]
        · have hud : isSpace d = false := by rw [hd]; simpa using hwd
          have hflag : replaceSpaceRuns (d :: ds) false = replaceSpaceRuns (d :: ds) true := by
            rw [replaceSpaceRuns, if_neg hwd, replaceSpaceRuns, if_neg hwd]
          rw [hflag, ihcs]
          cases hs : ds.splitOnP isSpace with
          | nil => exact absurd hs (List.splitOnP_ne_nil _ _)
          | cons w t =>
            have hsplit : (d :: ds).splitOnP isSpace = (d :: w) :: t := by
              rw [List.splitOnP_cons, hs]
              simp [hud]
            rw [specWords_cons_neg _ _ _ hu _ _ hsplit, specWords_cons_neg _ _ _ hud _ _ hs,
              intercalate_cons_cons c]

/-- Inside a run, the scan followed by trimming on the right with a class `u`
yields the words separated by `u` joined by single spaces, when `u` holds the
space and agrees with the class `\s` on the characters of `q`. -/
theorem strip_core_class (u : Char → Bool) (hspace : u ' ' = true) (q : List Char)
    (h : ∀ c ∈ q, u c = isPerlSpace c) :
    (replaceSpaceRuns q true).rdropWhile u
      = List.intercalate [' '] (specWords u q) := by
  induction q with
  | nil => simp [replaceSpaceRuns, specWords, List.rdropWhile, List.intercalate]
  | cons c cs ih =>
    have ihcs := ih (fun x hx => h x (List.mem_cons_of_mem _ hx))
    have hc := h c (List.mem_cons_self _ _)
    by_cases hw : isPerlSpace c = true
    · rw [replaceSpaceRuns, if_pos hw, if_pos rfl, specWords_cons_pos _ _ _ (by rw [hc, hw])]
      exact ihcs
    · have hu : u c = false := by rw [hc]; simpa using hw
      rw [replaceSpaceRuns, if_neg hw, rdropWhile_cons_neg _ _ _ hu]
      cases cs with
      | nil =>
        simp [replaceSpaceRuns, specWords, hu, List.rdropWhile, List.intercalate]
      | cons d ds =>
        have hd := h d (by simp)
        by_cases hwd : isPerlSpace d = true
        · have hud : u d = true := by rw [hd, hwd]
          rw [replaceSpaceRuns, if_pos hwd, if_neg (by simp)]
          rw [replaceSpaceRuns, if_pos hwd, if_pos rfl] at ihcs
          rw [rdropWhile_cons_pos _ _ _ hspace, ihcs]
          have hsplit : (d :: ds).splitOnP u = [] :: ds.splitOnP u := by
            rw [List.splitOnP_cons, if_pos hud]
          rw [specWords_cons_neg _ _ _ hu _ _ hsplit]
          have hsw : specWords u (d :: ds)
              = (ds.splitOnP u).filter (fun w => !w.isEmpty) := by
            rw [specWords_cons_pos _ _ _ hud]
            rfl
          rw [hsw]
          by_cases hF : (ds.splitOnP u).filter (fun w => !w.isEmpty) = []
          · rw [hF]
            simp [List.intercalate]
          · have hne : List.intercalate [' ']
                ((ds.splitOnP u).filter (fun w => !w.isEmpty)) ≠ [] := by
              intro he
              apply hF
              apply intercalate_eq_nil _ _ he
              intro w hw'
              exact specWords_nonempty u ds w hw'
            rw [if_neg hne, intercalate_single_cons _ _ hF]
        · have hud : u d = false := by rw [hd]; simpa using hwd
          have hflag : replaceSpaceRuns (d :: ds) false = replaceSpaceRuns (d :: ds) true := by
            rw [replaceSpaceRuns, if_neg hwd, replaceSpaceRuns, if_neg hwd]
          rw [hflag, ihcs]
          cases hs : ds.splitOnP u with
          | nil => exact absurd hs (List.splitOnP_ne_nil _ _)
          | cons w t =>
            have hsplit : (d :: ds).splitOnP u = (d :: w) :: t := by
              rw [List.splitOnP_cons, hs]
              simp [hud]
            rw [specWords_cons_neg _ _ _ hu _ _ hsplit, specWords_cons_neg _ _ _ hud _ _ hs,
              intercalate_cons_cons c]

/-- The canonical form equals the whitespace-separated words joined by single
spaces, when every `unicode.IsSpace` character of `q` is in the class `\s`. -/
theorem stripQuery_eq_words (q : String)
    (h : ∀ c ∈ q.data, isSpace c = true → isPerlSpace c = true) :
    stripQuery q = specNormalize isSpace q := by
  have hagree : ∀ c ∈ q.data, isSpace c = isPerlSpace c := by
    intro c hc
    by_cases hw : isPerlSpace c = true
    · have : isSpace c = true := by
        revert hw
        unfold isPerlSpace isSpace
        intro hw
        simp only [Bool.or_eq_true, beq_iff_eq] at hw
        rcases hw with (((h1 | h1) | h1) | h1) | h1 <;> subst h1 <;> decide
      rw [this, hw]
    · have hu : ¬ isSpace c = true := fun hu => hw (h c hc hu)
      simp only [Bool.not_eq_true] at hw hu
      rw [hw, hu]
  show (⟨((replaceSpaceRuns q.data false).dropWhile isSpace).rdropWhile isSpace⟩ : String)
    = ⟨List.intercalate [' '] (specWords isSpace q.data)⟩
  congr 1
  rw [← strip_core q.data hagree]
  congr 1
  cases hq : q.data with
  | nil => rfl
  | cons c cs =>
    by_cases hw : isPerlSpace c = true
    · rw [replaceSpaceRuns, if_pos hw, if_neg (by simp), replaceSpaceRuns, if_pos hw,
        if_pos rfl, List.dropWhile_cons_of_pos isSpace_space]
      cases hr : replaceSpaceRuns cs true with
      | nil => rfl
      | cons a r =>
        have := replaceSpaceRuns_true_head cs a (by rw [hr]; simp)
        have ha : a ∈ cs ∨ a = ' ' :=
          replaceSpaceRuns_subset cs true a (by rw [hr]; exact List.mem_cons_self _ _)
        have hua : isSpace a = false := by
          rcases ha with ha | ha
          · rw [hagree a (by rw [hq]; exact List.mem_cons_of_mem _ ha), this]
          · rw [ha] at this
            simp [isPerlSpace_space] at this
        rw [List.dropWhile_cons_of_neg (by simp [hua])]
    · have hu : isSpace c = false := by
        rw [hagree c (by rw [hq]; exact List.mem_cons_self _ _)]
        simpa using hw
      rw [replaceSpaceRuns, if_neg hw, replaceSpaceRuns, if_neg hw,
        List.dropWhile_cons_of_neg (by simp [hu])]

/-- C10. Normalization is idempotent: `stripQuery(stripQuery(q)) = stripQuery(q)`
for every string `q`. -/
theorem stripQuery_idempotent (q : String) :
    stripQuery (stripQuery q) = stripQuery q := by
  have hsub : (stripQuery q).data <:+: replaceSpaceRuns q.data false := by
    show ((replaceSpaceRuns q.data false).dropWhile isSpace).rdropWhile isSpace <:+: _
    exact (List.rdropWhile_prefix isSpace _).isInfix.trans
      (List.dropWhile_suffix isSpace).isInfix
  have hfix : replaceSpaceRuns (stripQuery q).data false = (stripQuery q).data := by
    apply replaceSpaceRuns_fixed
    · exact List.Chain'.infix (replaceSpaceRuns_chain q.data false) hsub
    · intro c hc
      exact replaceSpaceRuns_mem q.data false c (List.IsInfix.subset hsub hc)
  show (⟨((replaceSpaceRuns (stripQuery q).data false).dropWhile isSpace).rdropWhile isSpace⟩
    : String) = stripQuery q
  rw [hfix]
  show (⟨((((replaceSpaceRuns q.data false).dropWhile isSpace).rdropWhile isSpace).dropWhile
    isSpace).rdropWhile isSpace⟩ : String) = stripQuery q
  rw [trim_trim]
  rfl

/-! ## `stripQuery`: the result for every text -/

/-- A character of the class `\s` is white space for `unicode.IsSpace`. -/
theorem isSpace_of_isPerlSpace (c : Char) (h : isPerlSpace c = true) : isSpace c = true := by
  revert h
  unfold isPerlSpace isSpace
  intro h
  simp only [Bool.or_eq_true, beq_iff_eq] at h
  rcases h with (((h1 | h1) | h1) | h1) | h1 <;> subst h1 <;> decide

/-- A run whose characters are all of one kind is collapsed according to that
kind. -/
theorem collapseRun_of_class (ws : Char → Bool) (b : Bool) (run : List Char)
    (hne : run ≠ []) (h : ∀ x ∈ run, ws x = b) :
    collapseRun ws run = if b = true then [' '] else run := by
  cases run with
  | nil => exact absurd rfl hne
  | cons c rest =>
    unfold collapseRun
    simp only
    rw [h c (List.mem_cons_self _ _)]

/-- The loop that cuts a text into its maximal runs, followed by the collapse
of every run, continues the scan of `replaceSpaceRuns`. -/
theorem splitBy_loop_collapse :
    ∀ (rest : List Char) (ag : Char) (g : List Char) (gs : List (List Char)),
      (∀ x ∈ g, isPerlSpace x = isPerlSpace ag) →
      ((List.splitBy.loop (fun a b => isPerlSpace a == isPerlSpace b) rest ag g gs).map
          (collapseRun isPerlSpace)).flatten
        = (gs.reverse.map (collapseRun isPerlSpace)).flatten ++
          (if isPerlSpace ag = true then ' ' :: replaceSpaceRuns rest true
            else (ag :: g).reverse ++ replaceSpaceRuns rest false) := by
  intro rest
  induction rest with
  | nil =>
    intro ag g gs hg
    have hrun : collapseRun isPerlSpace (ag :: g).reverse
        = if isPerlSpace ag = true then [' '] else (ag :: g).reverse := by
      apply collapseRun_of_class
      · simp
      · intro x hx
        rcases List.mem_cons.mp (List.mem_reverse.mp hx) with h | h
        · rw [h]
        · exact hg x h
    rw [List.splitBy.loop]
    simp only [List.reverse_cons, List.map_append, List.map_cons, List.map_nil,
      List.flatten_append, List.flatten_cons, List.flatten_nil, List.append_nil,
      replaceSpaceRuns]
    simp only [List.reverse_cons] at hrun
    rw [hrun]
  | cons a rest ih =>
    intro ag g gs hg
    have hrun : collapseRun isPerlSpace (ag :: g).reverse
        = if isPerlSpace ag = true then [' '] else (ag :: g).reverse := by
      apply collapseRun_of_class
      · simp
      · intro x hx
        rcases List.mem_cons.mp (List.mem_reverse.mp hx) with h | h
        · rw [h]
        · exact hg x h
    rw [List.splitBy.loop]
    by_cases hsame : isPerlSpace ag = isPerlSpace a
    · have hR : (isPerlSpace ag == isPerlSpace a) = true := by simp [hsame]
      simp only [hR]
      rw [ih a (ag :: g) gs (by
        intro x hx
        rcases List.mem_cons.mp hx with h | h
        · rw [h, hsame]
        · rw [hg x h, hsame])]
      by_cases ha : isPerlSpace a = true
      · have hag : isPerlSpace ag = true := by rw [hsame, ha]
        rw [if_pos ha, if_pos hag, replaceSpaceRuns, if_pos ha, if_pos rfl]
      · have hag : ¬ isPerlSpace ag = true := by rw [hsame]; exact ha
        rw [if_neg ha, if_neg hag, replaceSpaceRuns, if_neg ha]
        simp
    · have hR : (isPerlSpace ag == isPerlSpace a) = false := by simp [hsame]
      simp only [hR]
      rw [ih a [] ((ag :: g).reverse :: gs) (by simp)]
      simp only [List.reverse_cons, List.map_append, List.map_cons, List.map_nil,
        List.flatten_append, List.flatten_cons, List.flatten_nil, List.append_nil,
        List.reverse_nil, List.nil_append, List.append_assoc]
      simp only [List.reverse_cons] at hrun
      rw [hrun]
      by_cases hag : isPerlSpace ag = true
      · have ha : ¬ isPerlSpace a = true := by
          intro ha
          exact hsame (by rw [hag, ha])
        rw [if_pos hag, if_neg ha, if_pos hag, replaceSpaceRuns, if_neg ha]
        simp
      · have ha : isPerlSpace a = true := by
          cases h1 : isPerlSpace a with
          | true => rfl
          | false =>
            exfalso
            apply hsame
            rw [h1]
            simpa using hag
        rw [if_neg hag, if_pos ha, if_neg hag, replaceSpaceRuns, if_pos ha, if_neg (by simp)]
        simp

/-- The scan of `replaceSpaceRuns` collapses every maximal run of `\s`
characters into one space. -/
theorem replaceSpaceRuns_eq_specCollapse (q : List Char) :
    replaceSpaceRuns q false = specCollapse isPerlSpace q := by
  cases q with
  | nil => rfl
  | cons a rest =>
    unfold specCollapse
    rw [List.splitBy, splitBy_loop_collapse rest a [] [] (by simp)]
    by_cases ha : isPerlSpace a = true
    · simp [replaceSpaceRuns, ha]
    · simp [replaceSpaceRuns, ha]

/-- What trimming on the right removes is made of trimmed characters. -/
theorem rdropWhile_split (p : Char → Bool) (l : List Char) :
    ∃ t, l = l.rdropWhile p ++ t ∧ ∀ x ∈ t, p x = true := by
  refine ⟨(l.reverse.takeWhile p).reverse, ?_, ?_⟩
  · unfold List.rdropWhile
    rw [← List.reverse_append, List.takeWhile_append_dropWhile, List.reverse_reverse]
  · intro x hx
    exact List.mem_takeWhile_imp (List.mem_reverse.mp hx)

/-- Trimmed characters at the end of a text do not change what trimming
leaves. -/
theorem trim_append_right (p : Char → Bool) (J t : List Char) (ht : ∀ x ∈ t, p x = true) :
    ((J ++ t).dropWhile p).rdropWhile p = (J.dropWhile p).rdropWhile p := by
  rw [List.dropWhile_append]
  by_cases hJ : (J.dropWhile p).isEmpty = true
  · rw [if_pos hJ]
    have h1 : t.dropWhile p = [] := List.dropWhile_eq_nil_iff.mpr ht
    have h2 : J.dropWhile p = [] := List.isEmpty_iff.mp hJ
    rw [h1, h2]
  · rw [if_neg hJ]
    unfold List.rdropWhile
    rw [List.reverse_append, List.dropWhile_append_of_pos (by
      intro a ha
      exact ht a (List.mem_reverse.mp ha))]

/-- The canonical form is the words separated by `\s` characters, joined by
single spaces, with leading and trailing `unicode.IsSpace` characters then
removed. -/
theorem stripQuery_eq_trimmed_words (q : List Char) :
    ((replaceSpaceRuns q false).dropWhile isSpace).rdropWhile isSpace
      = ((List.intercalate [' '] (specWords isPerlSpace q)).dropWhile isSpace).rdropWhile
        isSpace := by
  have hcore := strip_core_class isPerlSpace isPerlSpace_space q (fun _ _ => rfl)
  obtain ⟨t, ht, htall⟩ := rdropWhile_split isPerlSpace (replaceSpaceRuns q true)
  rw [hcore] at ht
  have htU : ∀ x ∈ t, isSpace x = true := fun x hx => isSpace_of_isPerlSpace x (htall x hx)
  have hfalse : (replaceSpaceRuns q false).dropWhile isSpace
      = (replaceSpaceRuns q true).dropWhile isSpace := by
    cases q with
    | nil => rfl
    | cons c cs =>
      by_cases hw : isPerlSpace c = true
      · rw [replaceSpaceRuns, if_pos hw, if_neg (by simp), replaceSpaceRuns, if_pos hw,
          if_pos rfl, List.dropWhile_cons_of_pos isSpace_space]
      · rw [replaceSpaceRuns, if_neg hw, replaceSpaceRuns, if_neg hw]
  rw [hfalse, ht]
  exact trim_append_right isSpace _ t htU

/-- C9 (as amended). For every text `q`, the canonical form is `q` with every
maximal run of characters of the class `\s` collapsed into a single space and
the leading and trailing `unicode.IsSpace` characters then removed;
equivalently, it is the words of `q` separated by `\s` characters, joined by
single spaces, with leading and trailing `unicode.IsSpace` characters then
removed. It never starts or ends with a `unicode.IsSpace` character and never
contains two adjacent characters of the class `\s` nor a `\s` character other
than the space; and when every `unicode.IsSpace` character of `q` belongs to
the class `\s`, it equals the whitespace-separated words of `q` joined by
single spaces. -/
theorem stripQuery_canonical (q : String) :
    stripQuery q = ⟨specTrim isSpace (specCollapse isPerlSpace q.data)⟩ ∧
    stripQuery q = ⟨specTrim isSpace (specNormalize isPerlSpace q).data⟩ ∧
    (∀ c ∈ (stripQuery q).data.head?, isSpace c = false) ∧
    (∀ c ∈ (stripQuery q).data.getLast?, isSpace c = false) ∧
    List.Chain' (fun x y => ¬ (isPerlSpace x = true ∧ isPerlSpace y = true))
      (stripQuery q).data ∧
    (∀ c ∈ (stripQuery q).data, isPerlSpace c = true → c = ' ') ∧
    ((∀ c ∈ q.data, isSpace c = true → isPerlSpace c = true) →
      stripQuery q = specNormalize isSpace q) := by
  have hsub : (stripQuery q).data <:+: replaceSpaceRuns q.data false := by
    show ((replaceSpaceRuns q.data false).dropWhile isSpace).rdropWhile isSpace <:+: _
    exact (List.rdropWhile_prefix isSpace _).isInfix.trans
      (List.dropWhile_suffix isSpace).isInfix
  refine ⟨?_, ?_, ?_, ?_, ?_, ?_, stripQuery_eq_words q⟩
  · show (⟨((replaceSpaceRuns q.data false).dropWhile isSpace).rdropWhile isSpace⟩ : String)
      = ⟨specTrim isSpace (specCollapse isPerlSpace q.data)⟩
    rw [replaceSpaceRuns_eq_specCollapse]
    rfl
  · show (⟨((replaceSpaceRuns q.data false).dropWhile isSpace).rdropWhile isSpace⟩ : String)
      = ⟨specTrim isSpace (List.intercalate [' '] (specWords isPerlSpace q.data))⟩
    rw [stripQuery_eq_trimmed_words]
    rfl
  · exact trim_head isSpace (replaceSpaceRuns q.data false)
  · exact trim_last isSpace (replaceSpaceRuns q.data false)
  · exact List.Chain'.infix (replaceSpaceRuns_chain q.data false) hsub
  · intro c hc
    exact replaceSpaceRuns_mem q.data false c (List.IsInfix.subset hsub hc)

/-- C9, witness: a statement spread over several lines, with tabs. -/
theorem stripQuery_canonical_witness :
    (∀ c ∈ "  UPDATE  t\n\tSET a=?  ".data, isSpace c = true → isPerlSpace c = true) ∧
    stripQuery "  UPDATE  t\n\tSET a=?  " = specNormalize isSpace "  UPDATE  t\n\tSET a=?  " ∧
    stripQuery "  UPDATE  t\n\tSET a=?  " = "UPDATE t SET a=?" ∧
    specCollapse isPerlSpace "  UPDATE  t\n\tSET a=?  ".data = " UPDATE t SET a=? ".data :=
  ⟨by decide, (stripQuery_canonical "  UPDATE  t\n\tSET a=?  ").2.2.2.2.2.2 (by decide),
    by decide, by decide⟩

/-- C9, counterexample: the vertical tab is white space for `strings.TrimSpace`
but not for the class `\s`. Inside a statement it is kept, so the result holds
a white-space character other than a space and is not the words joined by
spaces; at the start of a statement it is removed although it is no `\s`
character. Under neither notion of white space is the result the text with
its white-space runs collapsed and its ends trimmed. -/
theorem stripQuery_canonical_counterexample :
    isSpace '\x0b' = true ∧ isPerlSpace '\x0b' = false ∧
    stripQuery "a\x0bb" = "a\x0bb" ∧
    specNormalize isSpace "a\x0bb" = "a b" ∧
    stripQuery "\x0ba" = "a" ∧
    specNormalize isPerlSpace "\x0ba" = "\x0ba" := by
  decide

/-! ## `QueryMatcherEqual` -/

/-- C8. `QueryMatcherEqual.Match` returns `nil` exactly when the two canonical
forms are equal strings; otherwise it returns an error whose message contains
both canonical forms. -/
theorem QueryMatcherEqual_spec (expectedSQL actualSQL : String) :
    (QueryMatcherEqual expectedSQL actualSQL = none ↔
      stripQuery expectedSQL = stripQuery actualSQL) ∧
    (QueryMatcherEqual expectedSQL actualSQL = none ∨
      ∃ msg, QueryMatcherEqual expectedSQL actualSQL = some (.errorString msg) ∧
        (stripQuery actualSQL).data <:+: msg.data ∧
        (stripQuery expectedSQL).data <:+: msg.data) := by
  unfold QueryMatcherEqual
  by_cases h : stripQuery actualSQL = stripQuery expectedSQL
  · simp [h]
  · refine ⟨?_, Or.inr ?_⟩
    · simp only [ne_eq, h, not_false_eq_true, if_true]
      constructor
      · intro h'
        simp at h'
      · intro h'
        exact absurd h'.symm h
    · simp only [ne_eq, h, not_false_eq_true, if_true]
      refine ⟨_, rfl, ?_, ?_⟩
      · refine ⟨"actual sql: \"".data,
          ("\" does not equal to expected \"" ++ stripQuery expectedSQL ++ "\"").data, ?_⟩
        simp [String.data_append]
      · refine ⟨("actual sql: \"" ++ stripQuery actualSQL
          ++ "\" does not equal to expected \"").data, "\"".data, ?_⟩
        simp [String.data_append]

/-! ## `QueryMatcherSqlParser` -/

/-- The regular-expression strategy never returns the shuffle signal. -/
theorem QueryMatcherRegexp_not_shuffle (R : RegexpPkg) (expectedSQL actualSQL : String)
    (e : ErrShuffle) : QueryMatcherRegexp R expectedSQL actualSQL ≠ some (.errShuffle e) := by
  unfold QueryMatcherRegexp
  simp only
  split
  · simp
  · split <;> simp

/-- The structural matcher returns either the shuffle signal or what the
regular-expression strategy returns, when both statements parse and it does
not fault. -/
theorem QueryMatcherSqlParser_cases (R : RegexpPkg) (P : SqlParserPkg)
    (expectedSQL actualSQL : String) (pe pa : Statement) (r : Option GoError)
    (he : P.Parse expectedSQL = .ok pe) (ha : P.Parse actualSQL = .ok pa)
    (hr : QueryMatcherSqlParser R P expectedSQL actualSQL = .ok r) :
    (∃ s, r = some (.errShuffle s)) ∨ r = QueryMatcherRegexp R expectedSQL actualSQL := by
  unfold QueryMatcherSqlParser at hr
  rw [he, ha] at hr
  simp only at hr
  cases pe with
  | Select => cases pa <;> simp at hr <;> exact Or.inr hr.symm
  | Other => cases pa <;> simp at hr <;> exact Or.inr hr.symm
  | Update expected =>
    cases pa with
    | Select => simp at hr; exact Or.inr hr.symm
    | Other => simp at hr; exact Or.inr hr.symm
    | Update actual =>
      simp only at hr
      by_cases hlen : expected.Exprs.length = actual.Exprs.length
      · rw [if_pos hlen] at hr
        cases hsm : structuralMatch P expected actual with
        | error p => rw [hsm] at hr; simp at hr
        | ok res =>
          rw [hsm] at hr
          cases res with
          | none => simp at hr; exact Or.inr hr.symm
          | some err =>
            simp only [Except.ok.injEq] at hr
            left
            unfold structuralMatch at hsm
            revert hsm
            cases positionLoop 0 actual.Exprs [] with
            | error p => simp
            | ok pos =>
              simp only
              cases clauseLoop pos 0 expected.Exprs
                  { shuffled := false, shuffle := [],
                    expectedSetClause := List.replicate expected.Exprs.length none } with
              | error p => simp
              | ok st =>
                simp only
                cases Update.Format P
                    (if st.shuffled = true then
                      { expected with Exprs := st.expectedSetClause } else expected) with
                | error p => simp
                | ok buf1 =>
                  simp only
                  cases Update.Format P actual with
                  | error p => simp
                  | ok buf2 =>
                    simp only
                    by_cases hc : buf1 = buf2 ∧ st.shuffled = true
                    · rw [if_pos hc]
                      intro h
                      simp only [Except.ok.injEq, Option.some.injEq] at h
                      exact ⟨_, by rw [← hr, ← h]⟩
                    · rw [if_neg hc]
                      intro h
                      simp at h
      · rw [if_neg hlen] at hr
        simp at hr
        exact Or.inr hr.symm

/-- C3, the failing case. With the clauses `a, b, c` expected and `a, c, b`
actual, all bind variables, the matcher does not return the shuffle signal
`{1: 2, 2: 1}`: clause `a` keeps its position, nothing is stored at position 0
of `expectedSetClause`, and printing the reassembled list dereferences the nil
pointer left there. -/
theorem structural_fixed_clause_faults (R : RegexpPkg) (P : SqlParserPkg)
    (expectedSQL actualSQL comments tables whereText orderBy limit : String)
    (he : P.Parse expectedSQL = .ok (.Update
      { Comments := comments, TableExprs := tables,
        Exprs := [some ⟨⟨"a", ""⟩, .SQLVal .ValArg ":v1"⟩,
                  some ⟨⟨"b", ""⟩, .SQLVal .ValArg ":v2"⟩,
                  some ⟨⟨"c", ""⟩, .SQLVal .ValArg ":v3"⟩],
        Where := whereText, OrderBy := orderBy, Limit := limit }))
    (ha : P.Parse actualSQL = .ok (.Update
      { Comments := comments, TableExprs := tables,
        Exprs := [some ⟨⟨"a", ""⟩, .SQLVal .ValArg ":v1"⟩,
                  some ⟨⟨"c", ""⟩, .SQLVal .ValArg ":v2"⟩,
                  some ⟨⟨"b", ""⟩, .SQLVal .ValArg ":v3"⟩],
        Where := whereText, OrderBy := orderBy, Limit := limit })) :
    QueryMatcherSqlParser R P expectedSQL actualSQL = .error Panic.nilDereference := by
  unfold QueryMatcherSqlParser
  rw [he, ha]
  simp [structuralMatch, positionLoop, clauseLoop, GoMap.get, GoMap.set, sliceStore,
    Update.Format, UpdateExprs.Format, UpdateExpr.Format]

/-- C3, the failing case on the statements themselves. -/
theorem structural_fixed_clause_faults_witness :
    QueryMatcherSqlParser stdRegexp refSqlParser
      "UPDATE t SET a = ?, b = ?, c = ?" "UPDATE t SET a = ?, c = ?, b = ?"
      = .error Panic.nilDereference :=
  structural_fixed_clause_faults stdRegexp refSqlParser
    "UPDATE t SET a = ?, b = ?, c = ?" "UPDATE t SET a = ?, c = ?, b = ?"
    "" "t" "" "" "" (by decide) (by decide)

/-- C4. Documented scenario: for the expected clauses `views, name, price` and
the actual clauses `name, price, views`, all bind variables, in statements
that otherwise agree, the matcher returns the shuffle signal with
`Shuffle = {0: 2, 1: 0, 2: 1}`, and `ShuffleArgs` with that map turns
`(3, "book", 3.5, 1)` into `("book", 3.5, 3, 1)`. -/
theorem scenario_shuffle (R : RegexpPkg) (P : SqlParserPkg)
    (expectedSQL actualSQL comments tables whereText orderBy limit : String)
    (he : P.Parse expectedSQL = .ok (.Update
      { Comments := comments, TableExprs := tables,
        Exprs := [some ⟨⟨"views", ""⟩, .SQLVal .ValArg ":v1"⟩,
                  some ⟨⟨"name", ""⟩, .SQLVal .ValArg ":v2"⟩,
                  some ⟨⟨"price", ""⟩, .SQLVal .ValArg ":v3"⟩],
        Where := whereText, OrderBy := orderBy, Limit := limit }))
    (ha : P.Parse actualSQL = .ok (.Update
      { Comments := comments, TableExprs := tables,
        Exprs := [some ⟨⟨"name", ""⟩, .SQLVal .ValArg ":v1"⟩,
                  some ⟨⟨"price", ""⟩, .SQLVal .ValArg ":v2"⟩,
                  some ⟨⟨"views", ""⟩, .SQLVal .ValArg ":v3"⟩],
        Where := whereText, OrderBy := orderBy, Limit := limit })) :
    QueryMatcherSqlParser R P expectedSQL actualSQL
      = .ok (some (.errShuffle { Shuffle := [(0, 2), (1, 0), (2, 1)] })) ∧
    ErrShuffle.ShuffleArgs { Shuffle := [(0, 2), (1, 0), (2, 1)] }
        [.int64 3, .string "book", .float64 0x400C000000000000, .int64 1]
      = .ok [.string "book", .float64 0x400C000000000000, .int64 3, .int64 1] := by
  refine ⟨?_, by decide⟩
  have h1 : toString (1 : Int) = "1" := by decide
  have h2 : toString (2 : Int) = "2" := by decide
  have h3 : toString (3 : Int) = "3" := by decide
  unfold QueryMatcherSqlParser
  rw [he, ha]
  simp [structuralMatch, positionLoop, clauseLoop, GoMap.get, GoMap.set, sliceStore,
    Update.Format, UpdateExprs.Format, UpdateExpr.Format, h1, h2, h3]

/-- C4, witness: the two statements and the arguments of
`TestShuffleArgsWithSqlparser`. -/
theorem scenario_shuffle_witness :
    QueryMatcherSqlParser stdRegexp refSqlParser
        "UPDATE products SET views = ?, name = ?, price = ? WHERE id = ?"
        "UPDATE products SET name = ?, price = ?, views = ? WHERE id = ?"
      = .ok (some (.errShuffle { Shuffle := [(0, 2), (1, 0), (2, 1)] })) ∧
    ErrShuffle.ShuffleArgs { Shuffle := [(0, 2), (1, 0), (2, 1)] }
        [.int64 3, .string "book", .float64 0x400C000000000000, .int64 1]
      = .ok [.string "book", .float64 0x400C000000000000, .int64 3, .int64 1] :=
  scenario_shuffle stdRegexp refSqlParser
    "UPDATE products SET views = ?, name = ?, price = ? WHERE id = ?"
    "UPDATE products SET name = ?, price = ?, views = ? WHERE id = ?"
    "" "products" " where id = :v4" "" "" (by decide) (by decide)

/-- C5 (as amended). For two `UPDATE` statements that parse and have a
different number of `SET` clauses, the matcher returns exactly what the
regular-expression strategy returns on the same texts, and so never the
shuffle signal. -/
theorem clause_count_mismatch (R : RegexpPkg) (P : SqlParserPkg)
    (expectedSQL actualSQL : String) (expected actual : Update)
    (he : P.Parse expectedSQL = .ok (.Update expected))
    (ha : P.Parse actualSQL = .ok (.Update actual))
    (hne : expected.Exprs.length ≠ actual.Exprs.length) :
    QueryMatcherSqlParser R P expectedSQL actualSQL
      = .ok (QueryMatcherRegexp R expectedSQL actualSQL) ∧
    ∀ s, QueryMatcherSqlParser R P expectedSQL actualSQL ≠ .ok (some (.errShuffle s)) := by
  have h : QueryMatcherSqlParser R P expectedSQL actualSQL
      = .ok (QueryMatcherRegexp R expectedSQL actualSQL) := by
    unfold QueryMatcherSqlParser
    rw [he, ha]
    simp only
    rw [if_neg hne]
  refine ⟨h, ?_⟩
  intro s hs
  rw [h] at hs
  exact QueryMatcherRegexp_not_shuffle R expectedSQL actualSQL s (Except.ok.inj hs)

/-- C5, witness: one clause against two, where the expected text does not
occur in the actual text. -/
theorem clause_count_mismatch_witness :
    QueryMatcherSqlParser stdRegexp refSqlParser "UPDATE t SET a = 1" "UPDATE t SET b = 1, a = 2"
      = .ok (QueryMatcherRegexp stdRegexp "UPDATE t SET a = 1" "UPDATE t SET b = 1, a = 2") ∧
    ∀ s, QueryMatcherSqlParser stdRegexp refSqlParser
      "UPDATE t SET a = 1" "UPDATE t SET b = 1, a = 2" ≠ .ok (some (.errShuffle s)) :=
  clause_count_mismatch stdRegexp refSqlParser "UPDATE t SET a = 1" "UPDATE t SET b = 1, a = 2"
    { Comments := "", TableExprs := "t",
      Exprs := [some ⟨⟨"a", ""⟩, .SQLVal .IntVal "1"⟩],
      Where := "", OrderBy := "", Limit := "" }
    { Comments := "", TableExprs := "t",
      Exprs := [some ⟨⟨"b", ""⟩, .SQLVal .IntVal "1"⟩, some ⟨⟨"a", ""⟩, .SQLVal .IntVal "2"⟩],
      Where := "", OrderBy := "", Limit := "" }
    (by decide) (by decide) (by decide)

/-- C5, counterexample: `UPDATE t SET a = 1` has one clause and
`UPDATE t SET a = 1, b = 2` has two; the matcher falls back to the
regular-expression strategy, the expected text occurs in the actual text, and
the result is `nil`: a match is reported. -/
theorem clause_count_mismatch_counterexample :
    refSqlParser.Parse "UPDATE t SET a = 1" = .ok (.Update
      { Comments := "", TableExprs := "t",
        Exprs := [some ⟨⟨"a", ""⟩, .SQLVal .IntVal "1"⟩],
        Where := "", OrderBy := "", Limit := "" }) ∧
    refSqlParser.Parse "UPDATE t SET a = 1, b = 2" = .ok (.Update
      { Comments := "", TableExprs := "t",
        Exprs := [some ⟨⟨"a", ""⟩, .SQLVal .IntVal "1"⟩, some ⟨⟨"b", ""⟩, .SQLVal .IntVal "2"⟩],
        Where := "", OrderBy := "", Limit := "" }) ∧
    QueryMatcherSqlParser stdRegexp refSqlParser "UPDATE t SET a = 1" "UPDATE t SET a = 1, b = 2"
      = .ok none := by
  decide

/-- C6 (as amended). When both statements parse and the matcher returns, a
match of the regular-expression strategy (`nil`) is a match of the structural
matcher (`nil` or the shuffle signal). A statement that does not parse is not
recovered: the matcher returns an error with the diagnostic of the parser,
first for the expected text, then for the actual one. -/
theorem structural_adds_successes (R : RegexpPkg) (P : SqlParserPkg)
    (expectedSQL actualSQL : String) :
    (∀ pe pa r, P.Parse expectedSQL = .ok pe → P.Parse actualSQL = .ok pa →
      QueryMatcherSqlParser R P expectedSQL actualSQL = .ok r →
      QueryMatcherRegexp R expectedSQL actualSQL = none →
      r = none ∨ ∃ s, r = some (.errShuffle s)) ∧
    (∀ d, P.Parse expectedSQL = .error d →
      QueryMatcherSqlParser R P expectedSQL actualSQL
        = .ok (some (.errorString ("expectedSQL parse error: " ++ d)))) ∧
    (∀ pe d, P.Parse expectedSQL = .ok pe → P.Parse actualSQL = .error d →
      QueryMatcherSqlParser R P expectedSQL actualSQL
        = .ok (some (.errorString ("actualSQL parse error: " ++ d)))) := by
  refine ⟨?_, ?_, ?_⟩
  · intro pe pa r he ha hr hre
    rcases QueryMatcherSqlParser_cases R P expectedSQL actualSQL pe pa r he ha hr with h | h
    · exact Or.inr h
    · exact Or.inl (by rw [h, hre])
  · intro d he
    unfold QueryMatcherSqlParser
    rw [he]
  · intro pe d he ha
    unfold QueryMatcherSqlParser
    rw [he, ha]

/-- C6, witness: the same statement on both sides, up to spacing; the regular
expression made of the expected text matches, and so does the structural
matcher. -/
theorem structural_adds_successes_witness :
    QueryMatcherSqlParser stdRegexp refSqlParser "UPDATE t SET a = 1" "UPDATE t  SET a = 1"
      = .ok none ∧
    QueryMatcherRegexp stdRegexp "UPDATE t SET a = 1" "UPDATE t  SET a = 1" = none ∧
    ((none : Option GoError) = none ∨ ∃ s, (none : Option GoError) = some (.errShuffle s)) :=
  ⟨by decide, by decide,
    (structural_adds_successes stdRegexp refSqlParser
      "UPDATE t SET a = 1" "UPDATE t  SET a = 1").1
      (.Update
        { Comments := "", TableExprs := "t",
          Exprs := [some ⟨⟨"a", ""⟩, .SQLVal .IntVal "1"⟩],
          Where := "", OrderBy := "", Limit := "" })
      (.Update
        { Comments := "", TableExprs := "t",
          Exprs := [some ⟨⟨"a", ""⟩, .SQLVal .IntVal "1"⟩],
          Where := "", OrderBy := "", Limit := "" })
      none (by decide) (by decide) (by decide) (by decide)⟩

/-- C6, counterexample: the expected text `UPDATE products` is a regular
expression that matches the actual statement, but it is not a complete
statement; the matcher returns the parse error and does not fall back. -/
theorem structural_adds_successes_counterexample :
    QueryMatcherRegexp stdRegexp "UPDATE products" "UPDATE products SET views = 1" = none ∧
    ∃ diagnostic, refSqlParser.Parse "UPDATE products" = .error diagnostic ∧
      QueryMatcherSqlParser stdRegexp refSqlParser
          "UPDATE products" "UPDATE products SET views = 1"
        = .ok (some (.errorString ("expectedSQL parse error: " ++ diagnostic))) :=
  ⟨by decide, "syntax error", by decide, by decide⟩

/-- C7 (as amended). When both statements parse and one of them is not an
`UPDATE` statement, the matcher returns what the regular-expression strategy
returns on the same texts. -/
theorem non_update_falls_back (R : RegexpPkg) (P : SqlParserPkg)
    (expectedSQL actualSQL : String) (pe pa : Statement)
    (he : P.Parse expectedSQL = .ok pe) (ha : P.Parse actualSQL = .ok pa)
    (h : (∀ u, pe ≠ .Update u) ∨ (∀ u, pa ≠ .Update u)) :
    QueryMatcherSqlParser R P expectedSQL actualSQL
      = .ok (QueryMatcherRegexp R expectedSQL actualSQL) := by
  unfold QueryMatcherSqlParser
  rw [he, ha]
  simp only
  cases pe with
  | Select => rfl
  | Other => rfl
  | Update expected =>
    cases pa with
    | Select => rfl
    | Other => rfl
    | Update actual =>
      rcases h with h | h
      · exact absurd rfl (h expected)
      · exact absurd rfl (h actual)

/-- C7, witness: a `SELECT` expected, an `UPDATE` actual. -/
theorem non_update_falls_back_witness :
    QueryMatcherSqlParser stdRegexp refSqlParser
        "SELECT id FROM products" "UPDATE products SET views = 1"
      = .ok (QueryMatcherRegexp stdRegexp
        "SELECT id FROM products" "UPDATE products SET views = 1") :=
  non_update_falls_back stdRegexp refSqlParser
    "SELECT id FROM products" "UPDATE products SET views = 1"
    .Select
    (.Update
      { Comments := "", TableExprs := "products",
        Exprs := [some ⟨⟨"views", ""⟩, .SQLVal .IntVal "1"⟩],
        Where := "", OrderBy := "", Limit := "" })
    (by decide) (by decide) (Or.inl (fun u h => by cases h))

/-- C7, counterexample: the expected statement is a `SELECT`, hence no
`UPDATE`; the actual text ends in a dangling `WHERE` and does not parse. The
regular-expression strategy reports a match, the structural matcher the parse
error. -/
theorem non_update_falls_back_counterexample :
    refSqlParser.Parse "SELECT id FROM products" = .ok .Select ∧
    QueryMatcherRegexp stdRegexp "SELECT id FROM products" "SELECT id FROM products WHERE"
      = none ∧
    ∃ diagnostic, refSqlParser.Parse "SELECT id FROM products WHERE" = .error diagnostic ∧
      QueryMatcherSqlParser stdRegexp refSqlParser
          "SELECT id FROM products" "SELECT id FROM products WHERE"
        = .ok (some (.errorString ("actualSQL parse error: " ++ diagnostic))) :=
  ⟨by decide, by decide, "syntax error", by decide, by decide⟩

/-! ## `ShuffleArgs`: safety and the exact condition -/

/-- Reading a map after a write. -/
theorem GoMap.get_set {κ ν : Type} [DecidableEq κ] (m : GoMap κ ν) (k k' : κ) (v : ν) :
    GoMap.get (GoMap.set m k v) k' = if k = k' then some v else GoMap.get m k' := by
  induction m with
  | nil => simp [GoMap.set, GoMap.get]
  | cons kv m ih =>
    obtain ⟨a, b⟩ := kv
    by_cases hak : a = k
    · subst hak
      by_cases hk : a = k'
      · simp [GoMap.set, GoMap.get, hk]
      · simp [GoMap.set, GoMap.get, hk]
    · by_cases hk : k = k'
      · subst hk
        simp [GoMap.set, GoMap.get, hak, ih]
      · simp [GoMap.set, GoMap.get, hak, ih, hk]

/-- The first loop only reads the entries of the positions it visits. -/
theorem shuffleLoop_congr (S S' : GoMap Int Int) :
    ∀ (rest : List Value) (k : Nat) (sh : List Value),
      (∀ j, j < rest.length → GoMap.get S' ((k + j : Nat) : Int) = GoMap.get S ((k + j : Nat) : Int)) →
      shuffleLoop S' k rest sh = shuffleLoop S k rest sh := by
  intro rest
  induction rest with
  | nil => intro k sh _; rfl
  | cons x rest ih =>
    intro k sh h
    have h0 := h 0 (by simp)
    simp only [Nat.add_zero] at h0
    have hstep : ∀ sh', shuffleLoop S' (k + 1) rest sh' = shuffleLoop S (k + 1) rest sh' := by
      intro sh'
      apply ih
      intro j hj
      have := h (j + 1) (by simpa using hj)
      have e : k + 1 + j = k + (j + 1) := by omega
      rw [e]
      exact this
    rw [shuffleLoop, shuffleLoop, h0]
    cases GoMap.get S (k : Int) with
    | none =>
      simp only
      cases sliceStore sh (k : Int) x with
      | error p => rfl
      | ok sh' => exact hstep sh'
    | some v =>
      simp only
      cases sliceStore sh v x with
      | error p => rfl
      | ok sh' => exact hstep sh'

/-- C16. When every entry `P[i]` with `0 <= i < len(args)` lies in
`[0, len(args))`, `ShuffleArgs` returns without an out-of-range access and
keeps the length of `args`; and the entries whose key is not below `len(args)`
have no effect: a map that agrees with `P` below `len(args)` gives the same
result, in particular `P` with an entry written at a key `>= len(args)`. -/
theorem ShuffleArgs_safe (S : GoMap Int Int) (args : List Value)
    (hrange : ∀ (i : Nat) (v : Int), i < args.length → GoMap.get S (i : Int) = some v →
      0 ≤ v ∧ v < (args.length : Int)) :
    (∃ out, ErrShuffle.ShuffleArgs ⟨S⟩ args = .ok out ∧ out.length = args.length) ∧
    (∀ S' : GoMap Int Int,
      (∀ i : Nat, i < args.length → GoMap.get S' (i : Int) = GoMap.get S (i : Int)) →
      ErrShuffle.ShuffleArgs ⟨S'⟩ args = ErrShuffle.ShuffleArgs ⟨S⟩ args) ∧
    (∀ k v : Int, (args.length : Int) ≤ k →
      ErrShuffle.ShuffleArgs ⟨GoMap.set S k v⟩ args = ErrShuffle.ShuffleArgs ⟨S⟩ args) := by
  have hcongr : ∀ S' : GoMap Int Int,
      (∀ i : Nat, i < args.length → GoMap.get S' (i : Int) = GoMap.get S (i : Int)) →
      ErrShuffle.ShuffleArgs ⟨S'⟩ args = ErrShuffle.ShuffleArgs ⟨S⟩ args := by
    intro S' h
    unfold ErrShuffle.ShuffleArgs
    simp only
    rw [shuffleLoop_congr S S' args 0 _ (by
      intro j hj
      simpa using h j hj)]
  refine ⟨?_, hcongr, ?_⟩
  · have hr : ∀ j, j < args.length →
        0 ≤ target S j ∧ target S j < (args.length : Int) := by
      intro j hj
      unfold target
      cases hg : GoMap.get S (j : Int) with
      | none => simp only; omega
      | some v => exact hrange j v hj hg
    obtain ⟨out, hout, hlen, _, _⟩ := ShuffleArgs_spec S args hr
    exact ⟨out, hout, hlen⟩
  · intro k v hk
    apply hcongr
    intro i hi
    rw [GoMap.get_set, if_neg (by omega)]

/-- C16, witness: the map of the documented scenario with an entry added at
key 7, on four arguments. -/
theorem ShuffleArgs_safe_witness :
    (∃ out, ErrShuffle.ShuffleArgs ⟨[(0, 2), (1, 0), (2, 1)]⟩
        [.int64 3, .string "book", .float64 0x400C000000000000, .int64 1] = .ok out ∧
      out.length = 4) ∧
    ErrShuffle.ShuffleArgs ⟨GoMap.set [(0, 2), (1, 0), (2, 1)] 7 0⟩
        [.int64 3, .string "book", .float64 0x400C000000000000, .int64 1]
      = ErrShuffle.ShuffleArgs ⟨[(0, 2), (1, 0), (2, 1)]⟩
        [.int64 3, .string "book", .float64 0x400C000000000000, .int64 1] :=
  have h := ShuffleArgs_safe [(0, 2), (1, 0), (2, 1)]
    [.int64 3, .string "book", .float64 0x400C000000000000, .int64 1]
    (by
      intro i v hi h
      simp only [List.length_cons, List.length_nil] at hi
      interval_cases i <;> simp [GoMap.get] at h <;> subst h <;> decide)
  ⟨h.1, h.2.2 7 0 (by decide)⟩

/-- C15. When the map, on the keys below `len(args)`, is injective and its set
of values equals its set of keys, `ShuffleArgs` returns a rearrangement `out`
of `args` with `out[P[i]] = args[i]` for every key `i` and `out[j] = args[j]`
for every index `j` that is not a key. -/
theorem ShuffleArgs_exact (S : GoMap Int Int) (args : List Value)
    (hinj : ∀ (i j : Nat) (v : Int), i < args.length → j < args.length →
      GoMap.get S (i : Int) = some v → GoMap.get S (j : Int) = some v → i = j)
    (hvals : ∀ (i : Nat) (v : Int), i < args.length → GoMap.get S (i : Int) = some v →
      ∃ j : Nat, j < args.length ∧ v = (j : Int) ∧ (GoMap.get S (j : Int)).isSome)
    (hkeys : ∀ j : Nat, j < args.length → (GoMap.get S (j : Int)).isSome →
      ∃ i : Nat, i < args.length ∧ GoMap.get S (i : Int) = some (j : Int)) :
    ∃ out, ErrShuffle.ShuffleArgs ⟨S⟩ args = .ok out ∧ out.Perm args ∧
      (∀ (i : Nat) (v : Int), i < args.length → GoMap.get S (i : Int) = some v →
        out[v.toNat]? = args[i]?) ∧
      (∀ j : Nat, j < args.length → GoMap.get S (j : Int) = none → out[j]? = args[j]?) := by
  have _ := hkeys
  have hrange : ∀ j, j < args.length →
      0 ≤ target S j ∧ target S j < (args.length : Int) := by
    intro j hj
    unfold target
    cases hg : GoMap.get S (j : Int) with
    | none => simp only; omega
    | some v =>
      obtain ⟨k, hk, hvk, _⟩ := hvals j v hj hg
      simp only
      omega
  have hkey : ∀ (i : Nat) (v : Int), i < args.length → GoMap.get S (i : Int) = some v →
      (GoMap.get S v).isSome := by
    intro i v hi hg
    obtain ⟨k, _, hvk, hs⟩ := hvals i v hi hg
    rw [hvk]
    exact hs
  have htinj := target_injective S args.length hinj hkey
  obtain ⟨out, hout, hlen, _, hl⟩ := ShuffleArgs_spec S args hrange
  have hall : ∀ i, i < args.length → out[(target S i).toNat]? = args[i]? := by
    intro i hi
    apply hl i hi
    intro j hij hj h
    have := htinj j i hj hi h
    omega
  refine ⟨out, hout, ?_, ?_, ?_⟩
  · apply perm_of_scatter args out (fun i => (target S i).toNat) hlen
    · intro i hi
      have := hrange i hi
      omega
    · intro i j hi hj h
      apply htinj i j hi hj
      have h1 := hrange i hi
      have h2 := hrange j hj
      omega
    · exact hall
  · intro i v hi hg
    have := hall i hi
    simpa [target, hg] using this
  · intro j hj hg
    have := hall j hj
    simpa [target, hg] using this

/-- C15, witness: `{0: 2, 2: 0}` exchanges the ends of a three-element list
and leaves the middle, which is not a key, in place. -/
theorem ShuffleArgs_exact_witness :
    ∃ out, ErrShuffle.ShuffleArgs ⟨[(0, 2), (2, 0)]⟩
        [.string "a", .string "b", .string "c"] = .ok out ∧
      out.Perm [.string "a", .string "b", .string "c"] ∧
      (∀ (i : Nat) (v : Int), i < 3 →
        GoMap.get ([(0, 2), (2, 0)] : GoMap Int Int) (i : Int) = some v →
        out[v.toNat]? = [Value.string "a", .string "b", .string "c"][i]?) ∧
      (∀ j : Nat, j < 3 → GoMap.get ([(0, 2), (2, 0)] : GoMap Int Int) (j : Int) = none →
        out[j]? = [Value.string "a", .string "b", .string "c"][j]?) :=
  ShuffleArgs_exact [(0, 2), (2, 0)] [.string "a", .string "b", .string "c"]
    (by
      intro i j v hi hj h1 h2
      simp only [List.length_cons, List.length_nil] at hi hj
      interval_cases i <;> interval_cases j <;> simp [GoMap.get] at h1 h2 <;> omega)
    (by
      intro i v hi h
      simp only [List.length_cons, List.length_nil] at hi
      interval_cases i <;> simp [GoMap.get] at h
      · exact ⟨2, by decide, h.symm, by decide⟩
      · exact ⟨0, by decide, h.symm, by decide⟩)
    (by
      intro j hj h
      simp only [List.length_cons, List.length_nil] at hj
      interval_cases j <;> simp [GoMap.get] at h
      · exact ⟨2, by decide, by decide⟩
      · exact ⟨0, by decide, by decide⟩)

/-! ## `QueryMatcherRegexp` -/

/-- C11. `QueryMatcherRegexp.Match` returns `nil` exactly when the canonical
form of the expected text compiles and the compiled expression matches
somewhere inside the canonical form of the actual text; it returns the error
of `regexp.Compile` when the pattern is not valid, and otherwise an error
whose message contains the canonical actual text and the pattern. -/
theorem QueryMatcherRegexp_spec (R : RegexpPkg) (expectedSQL actualSQL : String) :
    (QueryMatcherRegexp R expectedSQL actualSQL = none ↔
      ∃ re, R.Compile (stripQuery expectedSQL) = .ok re ∧
        R.MatchString re (stripQuery actualSQL) = true) ∧
    (∀ err, R.Compile (stripQuery expectedSQL) = .error err →
      QueryMatcherRegexp R expectedSQL actualSQL = some (.syntaxError err)) ∧
    (∀ re, R.Compile (stripQuery expectedSQL) = .ok re →
      R.MatchString re (stripQuery actualSQL) = false →
      ∃ msg, QueryMatcherRegexp R expectedSQL actualSQL = some (.errorString msg) ∧
        (stripQuery actualSQL).data <:+: msg.data ∧
        (stripQuery expectedSQL).data <:+: msg.data) := by
  unfold QueryMatcherRegexp
  simp only
  cases hc : R.Compile (stripQuery expectedSQL) with
  | error err =>
    refine ⟨?_, ?_, ?_⟩
    · simp
    · intro err' h
      simp only [Except.error.injEq] at h
      rw [h]
    · intro re h
      simp at h
  | ok re =>
    by_cases hm : R.MatchString re (stripQuery actualSQL) = true
    · refine ⟨?_, ?_, ?_⟩
      · simp [hm]
      · intro err h
        simp at h
      · intro re' h hf
        simp only [Except.ok.injEq] at h
        rw [← h, hm] at hf
        simp at hf
    · refine ⟨?_, ?_, ?_⟩
      · simp [hm]
      · intro err h
        simp at h
      · intro re' _ _
        simp only [Bool.not_eq_true] at hm
        simp only [hm, Bool.not_false, if_true]
        refine ⟨_, rfl, ?_, ?_⟩
        · refine ⟨"could not match actual sql: \"".data,
            ("\" with expected regexp \"" ++ stripQuery expectedSQL ++ "\"").data, ?_⟩
          simp [String.data_append]
        · refine ⟨("could not match actual sql: \"" ++ stripQuery actualSQL
            ++ "\" with expected regexp \"").data, "\"".data, ?_⟩
          simp [String.data_append]

/-- C11, witness: the pattern with the escaped star matches inside the longer
statement. -/
theorem QueryMatcherRegexp_spec_witness :
    QueryMatcherRegexp stdRegexp "SELECT \\* FROM products" "SELECT * FROM products WHERE id=1"
      = none ∧
    ∃ re, stdRegexp.Compile (stripQuery "SELECT \\* FROM products") = .ok re ∧
      stdRegexp.MatchString re (stripQuery "SELECT * FROM products WHERE id=1") = true :=
  ⟨by decide,
    (QueryMatcherRegexp_spec stdRegexp "SELECT \\* FROM products"
      "SELECT * FROM products WHERE id=1").1.mp (by decide)⟩

/-- C12 (as amended). For the expected text `UPDATE t SET a=?` and the actual
text `UPDATE t SET a=?, b=?`, one clause against two, the structural matcher
falls through to the regular-expression strategy; the expected text, compiled
as an expression, matches inside the actual text, and the result is `nil`. -/
theorem scenario_count_mismatch (R : RegexpPkg) (P : SqlParserPkg)
    (expected actual : Update) (re : R.Regexp)
    (he : P.Parse "UPDATE t SET a=?" = .ok (.Update expected))
    (ha : P.Parse "UPDATE t SET a=?, b=?" = .ok (.Update actual))
    (h1 : expected.Exprs.length = 1) (h2 : actual.Exprs.length = 2)
    (hc : R.Compile "UPDATE t SET a=?" = .ok re)
    (hm : R.MatchString re "UPDATE t SET a=?, b=?" = true) :
    QueryMatcherSqlParser R P "UPDATE t SET a=?" "UPDATE t SET a=?, b=?"
      = .ok (QueryMatcherRegexp R "UPDATE t SET a=?" "UPDATE t SET a=?, b=?") ∧
    QueryMatcherRegexp R "UPDATE t SET a=?" "UPDATE t SET a=?, b=?" = none := by
  have hs1 : stripQuery "UPDATE t SET a=?" = "UPDATE t SET a=?" := by decide
  have hs2 : stripQuery "UPDATE t SET a=?, b=?" = "UPDATE t SET a=?, b=?" := by decide
  constructor
  · unfold QueryMatcherSqlParser
    rw [he, ha]
    simp only
    rw [if_neg (by omega)]
  · unfold QueryMatcherRegexp
    simp only [hs1, hs2, hc, hm]
    rfl

/-- C12, witness: the scenario with the reference libraries. -/
theorem scenario_count_mismatch_witness :
    QueryMatcherSqlParser stdRegexp refSqlParser "UPDATE t SET a=?" "UPDATE t SET a=?, b=?"
      = .ok (QueryMatcherRegexp stdRegexp "UPDATE t SET a=?" "UPDATE t SET a=?, b=?") ∧
    QueryMatcherRegexp stdRegexp "UPDATE t SET a=?" "UPDATE t SET a=?, b=?" = none :=
  scenario_count_mismatch stdRegexp refSqlParser
    { Comments := "", TableExprs := "t",
      Exprs := [some ⟨⟨"a", ""⟩, .SQLVal .ValArg ":v1"⟩],
      Where := "", OrderBy := "", Limit := "" }
    { Comments := "", TableExprs := "t",
      Exprs := [some ⟨⟨"a", ""⟩, .SQLVal .ValArg ":v1"⟩, some ⟨⟨"b", ""⟩, .SQLVal .ValArg ":v2"⟩],
      Where := "", OrderBy := "", Limit := "" }
    (Regex.cat (Regex.cat (Regex.cat (Regex.cat (Regex.cat (Regex.cat (Regex.cat (Regex.cat
      (Regex.cat (Regex.cat (Regex.cat (Regex.cat (Regex.cat (Regex.cat (Regex.cat .eps
      (.lit 'U')) (.lit 'P')) (.lit 'D')) (.lit 'A')) (.lit 'T')) (.lit 'E')) (.lit ' '))
      (.lit 't')) (.lit ' ')) (.lit 'S')) (.lit 'E')) (.lit 'T')) (.lit ' ')) (.lit 'a'))
      (.alt .eps (.lit '=')))
    (by decide) (by decide) (by decide) (by decide) (by rfl) (by decide)

/-- C12, counterexample: in the expected text the `?` is the operator "zero or
one" applied to `=`, so the pattern asks for `UPDATE t SET a` followed by an
optional `=`, which the actual text contains. The result is `nil`, a match,
not a mismatch error. -/
theorem scenario_count_mismatch_counterexample :
    QueryMatcherRegexp stdRegexp "UPDATE t SET a=?" "UPDATE t SET a" = none ∧
    QueryMatcherRegexp stdRegexp "UPDATE t SET a=?" "UPDATE t SET a=?, b=?" = none ∧
    QueryMatcherSqlParser stdRegexp refSqlParser "UPDATE t SET a=?" "UPDATE t SET a=?, b=?"
      = .ok none := by
  decide

/-! ## The two loops of `QueryMatcherSqlParser` -/

/-- One iteration of the loop of lines 106-117. -/
theorem clauseLoop_cons (pos : GoMap String Int) (oldPos : Nat) (c : UpdateExpr)
    (rest : List (Option UpdateExpr)) (st : ShuffleState) :
    clauseLoop pos oldPos (some c :: rest) st =
      match moveOf pos oldPos c with
      | some newPos =>
        match sliceStore st.expectedSetClause newPos (some (rewritten c newPos)) with
        | .error p => .error p
        | .ok esc =>
          clauseLoop pos (oldPos + 1) rest
            { shuffled := true
              shuffle := GoMap.set st.shuffle (oldPos : Int) newPos
              expectedSetClause := esc }
      | none => clauseLoop pos (oldPos + 1) rest st := by
  rw [clauseLoop]
  unfold moveOf rewritten
  cases GoMap.get pos c.Name.Name with
  | none => rfl
  | some newPos =>
    simp only
    by_cases h : (oldPos : Int) = newPos
    · simp [h]
    · simp only [ne_eq, h, not_false_eq_true, if_true]
      cases c.Expr <;> rfl

/-- The loop of lines 98-100 on a clause list without nil pointers: it
returns a map that sends a column name to the position of its last occurrence
and has no entry for the other names. -/
theorem positionLoop_spec :
    ∀ (l : List UpdateExpr) (k : Nat) (m0 : GoMap String Int),
      ∃ m, positionLoop k (l.map some) m0 = .ok m ∧
        (∀ name, (∀ c ∈ l, c.Name.Name ≠ name) → GoMap.get m name = GoMap.get m0 name) ∧
        (∀ j c, l[j]? = some c →
          (∀ j' c', j < j' → l[j']? = some c' → c'.Name.Name ≠ c.Name.Name) →
          GoMap.get m c.Name.Name = some ((k + j : Nat) : Int)) ∧
        (∀ name v, GoMap.get m name = some v →
          GoMap.get m0 name = some v ∨
          ∃ j c, l[j]? = some c ∧ c.Name.Name = name ∧ v = ((k + j : Nat) : Int)) := by
  intro l
  induction l with
  | nil =>
    intro k m0
    exact ⟨m0, rfl, fun _ _ => rfl, fun j c h => by simp at h, fun _ _ h => Or.inl h⟩
  | cons c l ih =>
    intro k m0
    obtain ⟨m, hm, hkeep, hlast, hfrom⟩ := ih (k + 1) (GoMap.set m0 c.Name.Name (k : Int))
    refine ⟨m, ?_, ?_, ?_, ?_⟩
    · simp only [List.map_cons]
      rw [positionLoop]
      exact hm
    · intro name hname
      rw [hkeep name (fun c' hc' => hname c' (List.mem_cons_of_mem _ hc')), GoMap.get_set,
        if_neg (hname c (List.mem_cons_self _ _))]
    · intro j cj hj hlater
      cases j with
      | zero =>
        simp only [List.getElem?_cons_zero, Option.some.injEq] at hj
        subst hj
        rw [hkeep c.Name.Name ?_, GoMap.get_set, if_pos rfl]
        · simp
        · intro c' hc'
          obtain ⟨j', hj'⟩ := List.getElem?_of_mem hc'
          exact hlater (j' + 1) c' (by omega) (by simpa using hj')
      | succ j =>
        simp only [List.getElem?_cons_succ] at hj
        have := hlast j cj hj (fun j' c' hjj' hj' =>
          hlater (j' + 1) c' (by omega) (by simpa using hj'))
        rw [this]
        congr 2
        omega
    · intro name v hv
      rcases hfrom name v hv with h | ⟨j, cj, hj, hn, hvj⟩
      · rw [GoMap.get_set] at h
        by_cases hc : c.Name.Name = name
        · rw [if_pos hc] at h
          right
          refine ⟨0, c, by simp, hc, ?_⟩
          simp only [Option.some.injEq] at h
          rw [← h]
          simp
        · rw [if_neg hc] at h
          exact Or.inl h
      · right
        refine ⟨j + 1, cj, by simpa using hj, hn, ?_⟩
        rw [hvj]
        congr 1
        omega

/-- The loop of lines 106-117 on a clause list without nil pointers, when
every new position lies inside `expectedSetClause`: it returns; `shuffled` is
set exactly when some clause is moved; `shuffle` gets the entry
`oldPos -> newPos` of every moved clause and no other; and a slot of
`expectedSetClause` holds the last clause moved there, or is left as it was. -/
theorem clauseLoop_spec (pos : GoMap String Int) :
    ∀ (l : List UpdateExpr) (k : Nat) (st : ShuffleState),
      (∀ j c v, l[j]? = some c → moveOf pos (k + j) c = some v →
        0 ≤ v ∧ v < (st.expectedSetClause.length : Int)) →
      ∃ st', clauseLoop pos k (l.map some) st = .ok st' ∧
        st'.expectedSetClause.length = st.expectedSetClause.length ∧
        (st'.shuffled = true ↔
          st.shuffled = true ∨ ∃ j c, l[j]? = some c ∧ (moveOf pos (k + j) c).isSome) ∧
        (∀ key : Int, (∀ j, j < l.length → key ≠ ((k + j : Nat) : Int)) →
          GoMap.get st'.shuffle key = GoMap.get st.shuffle key) ∧
        (∀ j c v, l[j]? = some c → moveOf pos (k + j) c = some v →
          GoMap.get st'.shuffle ((k + j : Nat) : Int) = some v) ∧
        (∀ key v, GoMap.get st'.shuffle key = some v →
          GoMap.get st.shuffle key = some v ∨
          ∃ j c, l[j]? = some c ∧ key = ((k + j : Nat) : Int) ∧
            moveOf pos (k + j) c = some v) ∧
        (∀ p : Nat, (∀ j c, l[j]? = some c → moveOf pos (k + j) c ≠ some (p : Int)) →
          st'.expectedSetClause[p]? = st.expectedSetClause[p]?) ∧
        (∀ j c v, l[j]? = some c → moveOf pos (k + j) c = some v →
          (∀ j' c', j < j' → l[j']? = some c' → moveOf pos (k + j') c' ≠ some v) →
          st'.expectedSetClause[v.toNat]? = some (some (rewritten c v))) := by
  intro l
  induction l with
  | nil =>
    intro k st _
    refine ⟨st, rfl, rfl, ?_, fun _ _ => rfl, ?_, fun _ _ h => Or.inl h, fun _ _ => rfl, ?_⟩
    · simp
    · intro j c v h
      simp at h
    · intro j c v h
      simp at h
  | cons c l ih =>
    intro k st hrange
    have shift : ∀ j, k + 1 + j = k + (j + 1) := fun j => by omega
    cases hmv : moveOf pos k c with
    | none =>
      obtain ⟨st', hst, hlen, hsh, hkeep, hset, hfrom, hslot, hlast⟩ := ih (k + 1) st (by
        intro j cj v hj hm
        rw [shift] at hm
        exact hrange (j + 1) cj v (by simpa using hj) hm)
      refine ⟨st', ?_, hlen, ?_, ?_, ?_, ?_, ?_, ?_⟩
      · simp only [List.map_cons]
        rw [clauseLoop_cons, hmv]
        exact hst
      · rw [hsh]
        constructor
        · rintro (h | ⟨j, cj, hj, hm⟩)
          · exact Or.inl h
          · exact Or.inr ⟨j + 1, cj, by simpa using hj, by rw [← shift]; exact hm⟩
        · rintro (h | ⟨j, cj, hj, hm⟩)
          · exact Or.inl h
          · cases j with
            | zero =>
              simp only [List.getElem?_cons_zero, Option.some.injEq] at hj
              subst hj
              rw [Nat.add_zero, hmv] at hm
              simp at hm
            | succ j =>
              exact Or.inr ⟨j, cj, by simpa using hj, by rw [shift]; exact hm⟩
      · intro key hkey
        apply hkeep key
        intro j hj
        rw [shift]
        exact hkey (j + 1) (by simpa using hj)
      · intro j cj v hj hm
        cases j with
        | zero =>
          simp only [List.getElem?_cons_zero, Option.some.injEq] at hj
          subst hj
          rw [Nat.add_zero, hmv] at hm
          simp at hm
        | succ j =>
          have := hset j cj v (by simpa using hj) (by rw [shift]; exact hm)
          rw [shift] at this
          exact this
      · intro key v hv
        rcases hfrom key v hv with h | ⟨j, cj, hj, hk, hm⟩
        · exact Or.inl h
        · exact Or.inr ⟨j + 1, cj, by simpa using hj, by rw [← shift]; exact hk,
            by rw [← shift]; exact hm⟩
      · intro p hp
        apply hslot p
        intro j cj hj
        rw [shift]
        exact hp (j + 1) cj (by simpa using hj)
      · intro j cj v hj hm hlater
        cases j with
        | zero =>
          simp only [List.getElem?_cons_zero, Option.some.injEq] at hj
          subst hj
          rw [Nat.add_zero, hmv] at hm
          simp at hm
        | succ j =>
          apply hlast j cj v (by simpa using hj) (by rw [shift]; exact hm)
          intro j' c' hjj' hj'
          rw [shift]
          exact hlater (j' + 1) c' (by omega) (by simpa using hj')
    | some newPos =>
      have h0 := hrange 0 c newPos (by simp) (by rw [Nat.add_zero]; exact hmv)
      obtain ⟨st', hst, hlen, hsh, hkeep, hset, hfrom, hslot, hlast⟩ := ih (k + 1)
        { shuffled := true
          shuffle := GoMap.set st.shuffle (k : Int) newPos
          expectedSetClause := st.expectedSetClause.set newPos.toNat (some (rewritten c newPos)) }
        (by
          intro j cj v hj hm
          rw [shift] at hm
          simp only [List.length_set]
          exact hrange (j + 1) cj v (by simpa using hj) hm)
      simp only [List.length_set] at hlen
      simp only [true_or, iff_true] at hsh
      refine ⟨st', ?_, hlen, ?_, ?_, ?_, ?_, ?_, ?_⟩
      · simp only [List.map_cons]
        rw [clauseLoop_cons, hmv]
        simp only
        rw [sliceStore_ok _ _ _ h0.1 h0.2]
        exact hst
      · simp only [hsh, true_iff]
        exact Or.inr ⟨0, c, by simp, by rw [Nat.add_zero, hmv]; rfl⟩
      · intro key hkey
        rw [hkeep key (fun j hj => by rw [shift]; exact hkey (j + 1) (by simpa using hj))]
        simp only
        rw [GoMap.get_set, if_neg]
        have := hkey 0 (by simp)
        simpa using this.symm
      · intro j cj v hj hm
        cases j with
        | zero =>
          simp only [List.getElem?_cons_zero, Option.some.injEq] at hj
          subst hj
          rw [Nat.add_zero, hmv] at hm
          simp only [Option.some.injEq] at hm
          subst hm
          rw [Nat.add_zero, hkeep (k : Int) (fun j _ => by omega)]
          simp only
          rw [GoMap.get_set, if_pos rfl]
        | succ j =>
          have := hset j cj v (by simpa using hj) (by rw [shift]; exact hm)
          rw [shift] at this
          exact this
      · intro key v hv
        rcases hfrom key v hv with h | ⟨j, cj, hj, hk, hm⟩
        · simp only at h
          rw [GoMap.get_set] at h
          by_cases hkk : (k : Int) = key
          · rw [if_pos hkk] at h
            simp only [Option.some.injEq] at h
            subst h
            exact Or.inr ⟨0, c, by simp, by simpa using hkk.symm, by rw [Nat.add_zero]; exact hmv⟩
          · rw [if_neg hkk] at h
            exact Or.inl h
        · exact Or.inr ⟨j + 1, cj, by simpa using hj, by rw [← shift]; exact hk,
            by rw [← shift]; exact hm⟩
      · intro p hp
        rw [hslot p (fun j cj hj => by rw [shift]; exact hp (j + 1) cj (by simpa using hj))]
        simp only
        have hne : newPos.toNat ≠ p := by
          intro h
          have := hp 0 c (by simp)
          rw [Nat.add_zero, hmv] at this
          apply this
          rw [← h, Int.toNat_of_nonneg h0.1]
        rw [List.getElem?_set_ne hne]
      · intro j cj v hj hm hlater
        cases j with
        | zero =>
          simp only [List.getElem?_cons_zero, Option.some.injEq] at hj
          subst hj
          rw [Nat.add_zero, hmv] at hm
          simp only [Option.some.injEq] at hm
          subst hm
          rw [hslot newPos.toNat ?_]
          · simp only
            have hlt : newPos.toNat < st.expectedSetClause.length := by
              have := h0.2
              omega
            simp [hlt]
          · intro j' c' hj'
            rw [shift, Int.toNat_of_nonneg h0.1]
            exact hlater (j' + 1) c' (by omega) (by simpa using hj')
        | succ j =>
          apply hlast j cj v (by simpa using hj) (by rw [shift]; exact hm)
          intro j' c' hjj' hj'
          rw [shift]
          exact hlater (j' + 1) c' (by omega) (by simpa using hj')

/-- When a clause is moved, its column has an entry in the position map,
the entry differs from the old position, and its value is a literal. -/
theorem moveOf_eq_some (pos : GoMap String Int) (k : Nat) (c : UpdateExpr) (v : Int) :
    moveOf pos k c = some v ↔
      GoMap.get pos c.Name.Name = some v ∧ (k : Int) ≠ v ∧ ∃ typ val, c.Expr = .SQLVal typ val := by
  unfold moveOf
  cases hg : GoMap.get pos c.Name.Name with
  | none => simp
  | some newPos =>
    simp only
    by_cases hk : (k : Int) = newPos
    · simp only [ne_eq, hk, not_true_eq_false, if_false, Option.some.injEq]
      constructor
      · intro h
        simp at h
      · rintro ⟨h1, h2, _⟩
        exact absurd h1 h2
    · simp only [ne_eq, hk, not_false_eq_true, if_true, Option.some.injEq]
      cases hE : c.Expr with
      | SQLVal typ val =>
        simp only
        constructor
        · intro h
          have h := Option.some.inj h
          subst h
          exact ⟨rfl, hk, typ, val, rfl⟩
        · rintro ⟨h, _, _⟩
          simpa using h
      | other text =>
        simp only
        constructor
        · intro h
          simp at h
        · rintro ⟨_, _, typ, val, h⟩
          simp at h

/-- In a list whose images under `f` are pairwise distinct, equal images are
found at equal positions. -/
theorem index_unique {α β : Type} (f : α → β) :
    ∀ (l : List α) (i j : Nat) (a b : α), (l.map f).Nodup →
      l[i]? = some a → l[j]? = some b → f a = f b → i = j := by
  intro l
  induction l with
  | nil => intro i j a b _ h; simp at h
  | cons x l ih =>
    intro i j a b hnd hi hj hab
    rw [List.map_cons, List.nodup_cons] at hnd
    cases i with
    | zero =>
      cases j with
      | zero => rfl
      | succ j =>
        exfalso
        simp only [List.getElem?_cons_zero, Option.some.injEq] at hi
        simp only [List.getElem?_cons_succ] at hj
        apply hnd.1
        rw [hi, hab]
        exact List.mem_map_of_mem f (List.getElem?_mem hj)
    | succ i =>
      cases j with
      | zero =>
        exfalso
        simp only [List.getElem?_cons_zero, Option.some.injEq] at hj
        simp only [List.getElem?_cons_succ] at hi
        apply hnd.1
        rw [hj, ← hab]
        exact List.mem_map_of_mem f (List.getElem?_mem hi)
      | succ j =>
        simp only [List.getElem?_cons_succ] at hi hj
        rw [ih i j a b hnd.2 hi hj hab]

/-- The position map of an actual statement whose column names are distinct:
the entry of a name is the position of its clause. -/
theorem positions_of_nodup (as : List UpdateExpr)
    (hna : (as.map (fun c => c.Name.Name)).Nodup) :
    ∃ pos, positionLoop 0 (as.map some) [] = .ok pos ∧
      (∀ (p : Nat) (ca : UpdateExpr), as[p]? = some ca →
        GoMap.get pos ca.Name.Name = some (p : Int)) ∧
      (∀ name v, GoMap.get pos name = some v →
        ∃ (p : Nat) (ca : UpdateExpr), as[p]? = some ca ∧ ca.Name.Name = name ∧ v = (p : Int)) := by
  obtain ⟨pos, hpos, _, hlast, hfrom⟩ := positionLoop_spec as 0 []
  refine ⟨pos, hpos, ?_, ?_⟩
  · intro p ca hp
    have := hlast p ca hp (by
      intro j' c' hlt hj' heq
      have := index_unique (fun c => c.Name.Name) as j' p c' ca hna hj' hp heq
      omega)
    simpa using this
  · intro name v hv
    rcases hfrom name v hv with h | ⟨j, c, hj, hn, hvj⟩
    · simp [GoMap.get] at h
    · exact ⟨j, c, hj, hn, by simpa using hvj⟩

/-- The position map of any actual statement without nil pointers: an entry
names a position of the statement where the column occurs. -/
theorem positions_sound (as : List UpdateExpr) :
    ∃ pos, positionLoop 0 (as.map some) [] = .ok pos ∧
      (∀ name v, GoMap.get pos name = some v →
        ∃ (p : Nat) (ca : UpdateExpr), as[p]? = some ca ∧ ca.Name.Name = name ∧ v = (p : Int)) := by
  obtain ⟨pos, hpos, _, _, hfrom⟩ := positionLoop_spec as 0 []
  refine ⟨pos, hpos, ?_⟩
  intro name v hv
  rcases hfrom name v hv with h | ⟨j, c, hj, hn, hvj⟩
  · simp [GoMap.get] at h
  · exact ⟨j, c, hj, hn, by simpa using hvj⟩

/-- Printing a clause list without nil pointers returns. -/
theorem UpdateExprs_Format_ok (P : SqlParserPkg) :
    ∀ (l : List UpdateExpr) (sep : String),
      ∃ text, UpdateExprs.Format P (l.map some) sep = .ok text := by
  intro l
  induction l with
  | nil => intro sep; exact ⟨"", rfl⟩
  | cons c l ih =>
    intro sep
    obtain ⟨t, ht⟩ := ih ", "
    simp only [List.map_cons]
    rw [UpdateExprs.Format]
    simp only [UpdateExpr.Format, ht]
    exact ⟨_, rfl⟩

/-- Printing a clause list that holds a nil pointer faults. -/
theorem UpdateExprs_Format_nil (P : SqlParserPkg) :
    ∀ (l : List (Option UpdateExpr)) (sep : String), none ∈ l →
      UpdateExprs.Format P l sep = .error Panic.nilDereference := by
  intro l
  induction l with
  | nil => intro sep h; simp at h
  | cons x l ih =>
    intro sep h
    cases x with
    | none =>
      rw [UpdateExprs.Format]
      simp [UpdateExpr.Format]
    | some c =>
      have hl : none ∈ l := by
        rcases List.mem_cons.mp h with h | h
        · simp at h
        · exact h
      rw [UpdateExprs.Format]
      simp only [UpdateExpr.Format, ih ", " hl]

/-! ## `QueryMatcherSqlParser`: the reassembled clause list -/

/-- C13, the failing case in general. Take two `UPDATE` statements with the
same number of clauses and distinct column names. If some clause is displaced
and has a literal value (so that a reordering is detected), and some clause is
not moved, because it keeps its position or because its value is no literal,
then the slot of the second clause in `expectedSetClause` stays nil and the
call faults when the reassembled list is printed: the matcher does crash. -/
theorem structural_unmoved_clause_faults (R : RegexpPkg) (P : SqlParserPkg)
    (expectedSQL actualSQL : String) (expected actual : Update)
    (es as : List UpdateExpr)
    (he : P.Parse expectedSQL = .ok (.Update expected))
    (ha : P.Parse actualSQL = .ok (.Update actual))
    (hes : expected.Exprs = es.map some) (has : actual.Exprs = as.map some)
    (hlen : es.length = as.length)
    (hne : (es.map (fun c => c.Name.Name)).Nodup)
    (hna : (as.map (fun c => c.Name.Name)).Nodup)
    (i p : Nat) (ci ca : UpdateExpr)
    (hi : es[i]? = some ci) (hp : as[p]? = some ca) (hname : ca.Name.Name = ci.Name.Name)
    (hstay : p = i ∨ ∃ text, ci.Expr = .other text)
    (j q : Nat) (cj cq : UpdateExpr)
    (hj : es[j]? = some cj) (hq : as[q]? = some cq) (hnameq : cq.Name.Name = cj.Name.Name)
    (hqj : q ≠ j) (hval : ∃ typ val, cj.Expr = .SQLVal typ val) :
    QueryMatcherSqlParser R P expectedSQL actualSQL = .error Panic.nilDereference := by
  obtain ⟨pos, hpos, hA, hB⟩ := positions_of_nodup as hna
  have hrange : ∀ (j' : Nat) (c : UpdateExpr) (v : Int), es[j']? = some c →
      moveOf pos (0 + j') c = some v →
      0 ≤ v ∧ v < (((List.replicate es.length (none : Option UpdateExpr)).length : Nat) : Int) := by
    intro j' c v _ hm
    obtain ⟨hg, _, _⟩ := (moveOf_eq_some pos _ c v).mp hm
    obtain ⟨p', c', hp', _, hv⟩ := hB _ v hg
    have hlt : p' < as.length := (List.getElem?_eq_some_iff.mp hp').1
    simp only [List.length_replicate]
    omega
  obtain ⟨st, hst, hlenst, hsh, _, _, _, hslot, _⟩ := clauseLoop_spec pos es 0
    { shuffled := false, shuffle := [],
      expectedSetClause := List.replicate es.length none } hrange
  have hmj : moveOf pos (0 + j) cj = some (q : Int) := by
    rw [moveOf_eq_some]
    refine ⟨?_, ?_, hval⟩
    · rw [← hnameq]
      exact hA q cq hq
    · simp only [Nat.zero_add, ne_eq, Nat.cast_inj]
      exact fun h => hqj h.symm
  have hshuffled : st.shuffled = true := hsh.mpr (Or.inr ⟨j, cj, hj, by rw [hmj]; rfl⟩)
  have hmi : ∀ v, moveOf pos (0 + i) ci ≠ some v := by
    intro v hm
    obtain ⟨hg, hne', typ, val, hE⟩ := (moveOf_eq_some pos _ ci v).mp hm
    rw [← hname, hA p ca hp] at hg
    rcases hstay with h | ⟨text, h⟩
    · apply hne'
      rw [← Option.some.inj hg, h]
      simp
    · rw [h] at hE
      simp at hE
  have hempty : st.expectedSetClause[p]? = some none := by
    rw [hslot p ?_]
    · simp only
      have hlt : p < as.length := (List.getElem?_eq_some_iff.mp hp).1
      rw [List.getElem?_replicate, if_pos (by omega)]
    · intro j' c' hj' hm
      obtain ⟨hg, _, _⟩ := (moveOf_eq_some pos _ c' _).mp hm
      obtain ⟨p', ca', hp', hn', hv⟩ := hB _ _ hg
      have hpp : p' = p := by
        have : ((p : Nat) : Int) = (p' : Int) := hv
        omega
      subst hpp
      rw [hp] at hp'
      have hca : ca = ca' := Option.some.inj hp'
      subst hca
      have hij : j' = i := index_unique (fun c => c.Name.Name) es j' i c' ci hne hj' hi
        (by simp only; rw [← hn', hname])
      subst hij
      rw [hi] at hj'
      have hcc : ci = c' := Option.some.inj hj'
      subst hcc
      exact hmi _ hm
  have hmem : none ∈ st.expectedSetClause := List.getElem?_mem hempty
  unfold QueryMatcherSqlParser
  rw [he, ha]
  simp only
  rw [if_pos (by rw [hes, has]; simpa using hlen)]
  unfold structuralMatch
  rw [has, hpos]
  simp only
  rw [hes, List.length_map, hst]
  simp only [hshuffled, if_true]
  unfold Update.Format
  simp only
  rw [UpdateExprs_Format_nil P _ "" hmem]

/-- C13, the failing case on two statements: `z` keeps the last position while
`x` and `y` are exchanged. -/
theorem structural_unmoved_clause_faults_witness :
    QueryMatcherSqlParser stdRegexp refSqlParser
      "UPDATE t SET x = ?, y = ?, z = ?" "UPDATE t SET y = ?, x = ?, z = ?"
      = .error Panic.nilDereference :=
  structural_unmoved_clause_faults stdRegexp refSqlParser
    "UPDATE t SET x = ?, y = ?, z = ?" "UPDATE t SET y = ?, x = ?, z = ?"
    { Comments := "", TableExprs := "t",
      Exprs := [some ⟨⟨"x", ""⟩, .SQLVal .ValArg ":v1"⟩, some ⟨⟨"y", ""⟩, .SQLVal .ValArg ":v2"⟩,
        some ⟨⟨"z", ""⟩, .SQLVal .ValArg ":v3"⟩],
      Where := "", OrderBy := "", Limit := "" }
    { Comments := "", TableExprs := "t",
      Exprs := [some ⟨⟨"y", ""⟩, .SQLVal .ValArg ":v1"⟩, some ⟨⟨"x", ""⟩, .SQLVal .ValArg ":v2"⟩,
        some ⟨⟨"z", ""⟩, .SQLVal .ValArg ":v3"⟩],
      Where := "", OrderBy := "", Limit := "" }
    [⟨⟨"x", ""⟩, .SQLVal .ValArg ":v1"⟩, ⟨⟨"y", ""⟩, .SQLVal .ValArg ":v2"⟩,
      ⟨⟨"z", ""⟩, .SQLVal .ValArg ":v3"⟩]
    [⟨⟨"y", ""⟩, .SQLVal .ValArg ":v1"⟩, ⟨⟨"x", ""⟩, .SQLVal .ValArg ":v2"⟩,
      ⟨⟨"z", ""⟩, .SQLVal .ValArg ":v3"⟩]
    (by decide) (by decide) rfl rfl rfl (by decide) (by decide)
    2 2 ⟨⟨"z", ""⟩, .SQLVal .ValArg ":v3"⟩ ⟨⟨"z", ""⟩, .SQLVal .ValArg ":v3"⟩ rfl rfl rfl
    (Or.inl rfl)
    0 1 ⟨⟨"x", ""⟩, .SQLVal .ValArg ":v1"⟩ ⟨⟨"x", ""⟩, .SQLVal .ValArg ":v2"⟩ rfl rfl rfl
    (by decide) ⟨_, _, rfl⟩

/-! ## `QueryMatcherSqlParser`: the map that is built -/

/-- When the matcher returns the shuffle signal, the signal carries the map
the loop of lines 106-117 built. -/
theorem returned_shuffle (R : RegexpPkg) (P : SqlParserPkg)
    (expectedSQL actualSQL : String) (expected actual : Update)
    (pos : GoMap String Int) (st : ShuffleState)
    (he : P.Parse expectedSQL = .ok (.Update expected))
    (ha : P.Parse actualSQL = .ok (.Update actual))
    (hpos : positionLoop 0 actual.Exprs [] = .ok pos)
    (hst : clauseLoop pos 0 expected.Exprs
      { shuffled := false, shuffle := [],
        expectedSetClause := List.replicate expected.Exprs.length none } = .ok st)
    (s : ErrShuffle)
    (hs : QueryMatcherSqlParser R P expectedSQL actualSQL = .ok (some (.errShuffle s))) :
    s.Shuffle = st.shuffle := by
  unfold QueryMatcherSqlParser at hs
  rw [he, ha] at hs
  simp only at hs
  by_cases hlen : expected.Exprs.length = actual.Exprs.length
  · rw [if_pos hlen] at hs
    unfold structuralMatch at hs
    rw [hpos] at hs
    simp only at hs
    rw [hst] at hs
    simp only at hs
    revert hs
    cases Update.Format P
        (if st.shuffled = true then
          { expected with Exprs := st.expectedSetClause } else expected) with
    | error p => simp
    | ok buf1 =>
      simp only
      cases Update.Format P actual with
      | error p => simp
      | ok buf2 =>
        simp only
        by_cases hc : buf1 = buf2 ∧ st.shuffled = true
        · rw [if_pos hc]
          intro hs
          simp only [Except.ok.injEq, Option.some.injEq, GoError.errShuffle.injEq] at hs
          rw [← hs]
        · rw [if_neg hc]
          intro hs
          simp only [Except.ok.injEq] at hs
          exact absurd hs (QueryMatcherRegexp_not_shuffle R expectedSQL actualSQL s)
  · rw [if_neg hlen] at hs
    simp only [Except.ok.injEq] at hs
    exact absurd hs (QueryMatcherRegexp_not_shuffle R expectedSQL actualSQL s)

/-- When the matcher returns after a reordering was detected, no slot of the
reassembled clause list is nil. -/
theorem returned_slots_filled (R : RegexpPkg) (P : SqlParserPkg)
    (expectedSQL actualSQL : String) (expected actual : Update)
    (pos : GoMap String Int) (st : ShuffleState)
    (he : P.Parse expectedSQL = .ok (.Update expected))
    (ha : P.Parse actualSQL = .ok (.Update actual))
    (hlen : expected.Exprs.length = actual.Exprs.length)
    (hpos : positionLoop 0 actual.Exprs [] = .ok pos)
    (hst : clauseLoop pos 0 expected.Exprs
      { shuffled := false, shuffle := [],
        expectedSetClause := List.replicate expected.Exprs.length none } = .ok st)
    (r : Option GoError)
    (hr : QueryMatcherSqlParser R P expectedSQL actualSQL = .ok r)
    (hsh : st.shuffled = true) : none ∉ st.expectedSetClause := by
  intro hmem
  unfold QueryMatcherSqlParser at hr
  rw [he, ha] at hr
  simp only at hr
  rw [if_pos hlen] at hr
  unfold structuralMatch at hr
  rw [hpos] at hr
  simp only at hr
  rw [hst] at hr
  simp only [hsh, if_true] at hr
  unfold Update.Format at hr
  simp only at hr
  rw [UpdateExprs_Format_nil P _ "" hmem] at hr
  simp at hr

/-- A partial map on `[0, n)` that takes every value of `[0, n)` takes no
value twice. -/
theorem cover_injective (n : Nat) (m : Nat → Option Int)
    (hcover : ∀ p : Nat, p < n → ∃ j, j < n ∧ m j = some (p : Int)) :
    ∀ (i j : Nat) (v : Int), i < n → j < n → m i = some v → m j = some v → i = j := by
  choose g hg using fun p : Fin n => hcover p.val p.isLt
  let G : Fin n → Fin n := fun p => ⟨g p, (hg p).1⟩
  have hinj : Function.Injective G := by
    intro p q hpq
    have h1 : g p = g q := congrArg Fin.val hpq
    have h2 := (hg p).2
    rw [h1, (hg q).2] at h2
    apply Fin.ext
    have := Option.some.inj h2
    omega
  have hsurj : Function.Surjective G := Finite.injective_iff_surjective.mp hinj
  intro i j v hi hj hmi hmj
  obtain ⟨p, hp⟩ := hsurj ⟨i, hi⟩
  obtain ⟨q, hq⟩ := hsurj ⟨j, hj⟩
  have hp' : g p = i := congrArg Fin.val hp
  have hq' : g q = j := congrArg Fin.val hq
  have h1 := (hg p).2
  have h2 := (hg q).2
  rw [hp', hmi] at h1
  rw [hq', hmj] at h2
  have e1 := Option.some.inj h1
  have e2 := Option.some.inj h2
  have hpq : p = q := by
    apply Fin.ext
    omega
  rw [← hp', ← hq', hpq]

/-- C14. For two `UPDATE` statements with the same number `n` of clauses, the
loops of the matcher return and build a map `P` in which every key and every
value lies in `[0, n)` and a key `i` is present only if the column of expected
clause `i` occurs in the actual statement at position `P[i]`. No two keys have
the same value: this holds when the column names of the expected statement are
pairwise distinct, as the data model has them, and it holds, whatever the
column names, in every call that returns. The shuffle signal, when returned,
carries this map. -/
theorem shuffle_map_invariant (R : RegexpPkg) (P : SqlParserPkg)
    (expectedSQL actualSQL : String) (expected actual : Update)
    (es as : List UpdateExpr)
    (he : P.Parse expectedSQL = .ok (.Update expected))
    (ha : P.Parse actualSQL = .ok (.Update actual))
    (hes : expected.Exprs = es.map some) (has : actual.Exprs = as.map some)
    (hlen : es.length = as.length) :
    ∃ pos st, positionLoop 0 actual.Exprs [] = .ok pos ∧
      clauseLoop pos 0 expected.Exprs
        { shuffled := false, shuffle := [],
          expectedSetClause := List.replicate expected.Exprs.length none } = .ok st ∧
      (∀ k v, GoMap.get st.shuffle k = some v →
        0 ≤ k ∧ k < (es.length : Int) ∧ 0 ≤ v ∧ v < (es.length : Int)) ∧
      (∀ k v, GoMap.get st.shuffle k = some v →
        ∃ ce ca, es[k.toNat]? = some ce ∧ as[v.toNat]? = some ca ∧
          ca.Name.Name = ce.Name.Name) ∧
      ((es.map (fun c => c.Name.Name)).Nodup →
        ∀ i j v, GoMap.get st.shuffle i = some v → GoMap.get st.shuffle j = some v → i = j) ∧
      ((∃ r, QueryMatcherSqlParser R P expectedSQL actualSQL = .ok r) →
        ∀ i j v, GoMap.get st.shuffle i = some v → GoMap.get st.shuffle j = some v → i = j) ∧
      (∀ s, QueryMatcherSqlParser R P expectedSQL actualSQL = .ok (some (.errShuffle s)) →
        s.Shuffle = st.shuffle) := by
  obtain ⟨pos, hpos, hB⟩ := positions_sound as
  have hrange : ∀ (j' : Nat) (c : UpdateExpr) (v : Int), es[j']? = some c →
      moveOf pos (0 + j') c = some v →
      0 ≤ v ∧ v < (((List.replicate es.length (none : Option UpdateExpr)).length : Nat) : Int) := by
    intro j' c v _ hm
    obtain ⟨hg, _, _⟩ := (moveOf_eq_some pos _ c v).mp hm
    obtain ⟨p', c', hp', _, hv⟩ := hB _ v hg
    have hlt : p' < as.length := (List.getElem?_eq_some_iff.mp hp').1
    simp only [List.length_replicate]
    omega
  obtain ⟨st, hst, hlenst, hsh, _, _, hfrom, hslot, _⟩ := clauseLoop_spec pos es 0
    { shuffled := false, shuffle := [],
      expectedSetClause := List.replicate es.length none } hrange
  simp only [List.length_replicate] at hlenst
  have hmoved : ∀ k v, GoMap.get st.shuffle k = some v →
      ∃ (j : Nat) (ce : UpdateExpr), k = (j : Int) ∧ es[j]? = some ce ∧
        moveOf pos (0 + j) ce = some v := by
    intro k v hkv
    rcases hfrom k v hkv with h | ⟨j, c, hj, hk, hm⟩
    · simp [GoMap.get] at h
    · exact ⟨j, c, by simpa using hk, hj, hm⟩
  have hentry : ∀ k v, GoMap.get st.shuffle k = some v →
      ∃ (j p : Nat) (ce ca : UpdateExpr), k = (j : Int) ∧ v = (p : Int) ∧
        es[j]? = some ce ∧ as[p]? = some ca ∧ ca.Name.Name = ce.Name.Name := by
    intro k v hkv
    obtain ⟨j, c, hk, hj, hm⟩ := hmoved k v hkv
    obtain ⟨hg, _, _⟩ := (moveOf_eq_some pos _ c v).mp hm
    obtain ⟨p, ca, hp, hn, hv⟩ := hB _ v hg
    exact ⟨j, p, c, ca, hk, hv, hj, hp, hn⟩
  have hpos' : positionLoop 0 actual.Exprs [] = .ok pos := by rw [has]; exact hpos
  have hst' : clauseLoop pos 0 expected.Exprs
      { shuffled := false, shuffle := [],
        expectedSetClause := List.replicate expected.Exprs.length none } = .ok st := by
    rw [hes, List.length_map]
    exact hst
  refine ⟨pos, st, hpos', hst', ?_, ?_, ?_, ?_, ?_⟩
  · intro k v hkv
    obtain ⟨j, p, ce, ca, hk, hv, hj, hp, _⟩ := hentry k v hkv
    have h1 : j < es.length := (List.getElem?_eq_some_iff.mp hj).1
    have h2 : p < as.length := (List.getElem?_eq_some_iff.mp hp).1
    omega
  · intro k v hkv
    obtain ⟨j, p, ce, ca, hk, hv, hj, hp, hn⟩ := hentry k v hkv
    refine ⟨ce, ca, ?_, ?_, hn⟩
    · rw [hk]
      simpa using hj
    · rw [hv]
      simpa using hp
  · intro hne i j v hi hj
    obtain ⟨ji, p, ce, ca, hk, hv, hje, hp, hn⟩ := hentry i v hi
    obtain ⟨jj, p', ce', ca', hk', hv', hje', hp', hn'⟩ := hentry j v hj
    have hpp : p = p' := by omega
    subst hpp
    rw [hp] at hp'
    have hca : ca = ca' := Option.some.inj hp'
    subst hca
    have := index_unique (fun c => c.Name.Name) es ji jj ce ce' hne hje hje'
      (by simp only; rw [← hn, ← hn'])
    rw [hk, hk', this]
  · rintro ⟨r, hr⟩ i j v hi hj
    obtain ⟨ji, ce, hk, hje, hmi⟩ := hmoved i v hi
    obtain ⟨jj, ce', hk', hje', hmj⟩ := hmoved j v hj
    have hshuffled : st.shuffled = true := hsh.mpr (Or.inr ⟨ji, ce, hje, by rw [hmi]; rfl⟩)
    have hfilled := returned_slots_filled R P expectedSQL actualSQL expected actual pos st
      he ha (by rw [hes, has]; simpa using hlen) hpos' hst' r hr hshuffled
    have hcover : ∀ p : Nat, p < es.length → ∃ j', j' < es.length ∧
        (match es[j']? with
          | some c => moveOf pos (0 + j') c
          | none => none) = some (p : Int) := by
      intro p hp
      by_contra hno
      apply hfilled
      have hkeep : st.expectedSetClause[p]? = some none := by
        rw [hslot p ?_]
        · simp only
          rw [List.getElem?_replicate, if_pos hp]
        · intro j' c' hj' hm
          apply hno
          refine ⟨j', (List.getElem?_eq_some_iff.mp hj').1, ?_⟩
          rw [hj']
          exact hm
      exact List.getElem?_mem hkeep
    have h1 : ji < es.length := (List.getElem?_eq_some_iff.mp hje).1
    have h2 : jj < es.length := (List.getElem?_eq_some_iff.mp hje').1
    have := cover_injective es.length
      (fun j' => match es[j']? with
        | some c => moveOf pos (0 + j') c
        | none => none) hcover ji jj v h1 h2
      (by simp only [hje]; exact hmi) (by simp only [hje']; exact hmj)
    rw [hk, hk', this]
  · intro s hs
    exact returned_shuffle R P expectedSQL actualSQL expected actual pos st he ha hpos' hst' s hs

/-- C14, witness: the two statements of the documented scenario. The loops
build the map `{0: 2, 1: 0, 2: 1}`, which the matcher returns. -/
theorem shuffle_map_invariant_witness :
    QueryMatcherSqlParser stdRegexp refSqlParser
        "UPDATE products SET views = ?, name = ?, price = ? WHERE id = ?"
        "UPDATE products SET name = ?, price = ?, views = ? WHERE id = ?"
      = .ok (some (.errShuffle ⟨[(0, 2), (1, 0), (2, 1)]⟩)) ∧
    ∃ pos st,
      positionLoop 0
        [some ⟨⟨"name", ""⟩, .SQLVal .ValArg ":v1"⟩, some ⟨⟨"price", ""⟩, .SQLVal .ValArg ":v2"⟩,
          some ⟨⟨"views", ""⟩, .SQLVal .ValArg ":v3"⟩] [] = .ok pos ∧
      clauseLoop pos 0
        [some ⟨⟨"views", ""⟩, .SQLVal .ValArg ":v1"⟩, some ⟨⟨"name", ""⟩, .SQLVal .ValArg ":v2"⟩,
          some ⟨⟨"price", ""⟩, .SQLVal .ValArg ":v3"⟩]
        { shuffled := false, shuffle := [], expectedSetClause := List.replicate 3 none }
        = .ok st ∧
      st.shuffle = [(0, 2), (1, 0), (2, 1)] ∧
      (∀ k v, GoMap.get st.shuffle k = some v → 0 ≤ k ∧ k < 3 ∧ 0 ≤ v ∧ v < 3) ∧
      (∀ i j v, GoMap.get st.shuffle i = some v → GoMap.get st.shuffle j = some v → i = j) := by
  have hrun : QueryMatcherSqlParser stdRegexp refSqlParser
      "UPDATE products SET views = ?, name = ?, price = ? WHERE id = ?"
      "UPDATE products SET name = ?, price = ?, views = ? WHERE id = ?"
      = .ok (some (.errShuffle ⟨[(0, 2), (1, 0), (2, 1)]⟩)) := by decide
  refine ⟨hrun, ?_⟩
  obtain ⟨pos, st, hpos, hst, hrange, _, _, hinj, hret⟩ :=
    shuffle_map_invariant stdRegexp refSqlParser
      "UPDATE products SET views = ?, name = ?, price = ? WHERE id = ?"
      "UPDATE products SET name = ?, price = ?, views = ? WHERE id = ?"
      { Comments := "", TableExprs := "products",
        Exprs := [some ⟨⟨"views", ""⟩, .SQLVal .ValArg ":v1"⟩,
          some ⟨⟨"name", ""⟩, .SQLVal .ValArg ":v2"⟩,
          some ⟨⟨"price", ""⟩, .SQLVal .ValArg ":v3"⟩],
        Where := " where id = :v4", OrderBy := "", Limit := "" }
      { Comments := "", TableExprs := "products",
        Exprs := [some ⟨⟨"name", ""⟩, .SQLVal .ValArg ":v1"⟩,
          some ⟨⟨"price", ""⟩, .SQLVal .ValArg ":v2"⟩,
          some ⟨⟨"views", ""⟩, .SQLVal .ValArg ":v3"⟩],
        Where := " where id = :v4", OrderBy := "", Limit := "" }
      [⟨⟨"views", ""⟩, .SQLVal .ValArg ":v1"⟩, ⟨⟨"name", ""⟩, .SQLVal .ValArg ":v2"⟩,
        ⟨⟨"price", ""⟩, .SQLVal .ValArg ":v3"⟩]
      [⟨⟨"name", ""⟩, .SQLVal .ValArg ":v1"⟩, ⟨⟨"price", ""⟩, .SQLVal .ValArg ":v2"⟩,
        ⟨⟨"views", ""⟩, .SQLVal .ValArg ":v3"⟩]
      (by decide) (by decide) rfl rfl rfl
  have hs : st.shuffle = [(0, 2), (1, 0), (2, 1)] := (hret _ hrun).symm
  exact ⟨pos, st, hpos, hst, hs, hrange, hinj ⟨_, hrun⟩⟩

/-- Outside the data model: an expected statement that assigns column `a`
twice. Both clauses are sent to position 2, where `a` stands in the actual
statement, and the loop builds `{0: 2, 1: 2, 2: 0}`; slot 1 of the
reassembled list stays nil and the call faults, so this map is never
returned. -/
theorem duplicate_column_map :
    refSqlParser.Parse "UPDATE t SET a = ?, a = ?, b = ?" = .ok (.Update
      { Comments := "", TableExprs := "t",
        Exprs := [some ⟨⟨"a", ""⟩, .SQLVal .ValArg ":v1"⟩, some ⟨⟨"a", ""⟩, .SQLVal .ValArg ":v2"⟩,
          some ⟨⟨"b", ""⟩, .SQLVal .ValArg ":v3"⟩],
        Where := "", OrderBy := "", Limit := "" }) ∧
    refSqlParser.Parse "UPDATE t SET b = ?, c = ?, a = ?" = .ok (.Update
      { Comments := "", TableExprs := "t",
        Exprs := [some ⟨⟨"b", ""⟩, .SQLVal .ValArg ":v1"⟩, some ⟨⟨"c", ""⟩, .SQLVal .ValArg ":v2"⟩,
          some ⟨⟨"a", ""⟩, .SQLVal .ValArg ":v3"⟩],
        Where := "", OrderBy := "", Limit := "" }) ∧
    positionLoop 0
      [some ⟨⟨"b", ""⟩, .SQLVal .ValArg ":v1"⟩, some ⟨⟨"c", ""⟩, .SQLVal .ValArg ":v2"⟩,
        some ⟨⟨"a", ""⟩, .SQLVal .ValArg ":v3"⟩] []
      = .ok [("b", 0), ("c", 1), ("a", 2)] ∧
    clauseLoop [("b", 0), ("c", 1), ("a", 2)] 0
      [some ⟨⟨"a", ""⟩, .SQLVal .ValArg ":v1"⟩, some ⟨⟨"a", ""⟩, .SQLVal .ValArg ":v2"⟩,
        some ⟨⟨"b", ""⟩, .SQLVal .ValArg ":v3"⟩]
      { shuffled := false, shuffle := [], expectedSetClause := List.replicate 3 none }
      = .ok
        { shuffled := true, shuffle := [(0, 2), (1, 2), (2, 0)],
          expectedSetClause :=
            [some ⟨⟨"b", ""⟩, .SQLVal .ValArg ":v1"⟩, none,
              some ⟨⟨"a", ""⟩, .SQLVal .ValArg ":v3"⟩] } ∧
    QueryMatcherSqlParser stdRegexp refSqlParser
      "UPDATE t SET a = ?, a = ?, b = ?" "UPDATE t SET b = ?, c = ?, a = ?"
      = .error Panic.nilDereference := by
  decide

/-! ## `QueryMatcherSqlParser`: the fully displaced case -/

/-- A column of one statement is found in the other when the two clause lists
hold the same columns. -/
theorem find_column (xs ys : List UpdateExpr)
    (hperm : (xs.map (fun c => c.Name)).Perm (ys.map (fun c => c.Name)))
    (i : Nat) (cx : UpdateExpr) (hi : xs[i]? = some cx) :
    ∃ (p : Nat) (cy : UpdateExpr), ys[p]? = some cy ∧ cy.Name = cx.Name := by
  have hmem : cx.Name ∈ ys.map (fun c => c.Name) :=
    hperm.mem_iff.mp (List.mem_map_of_mem _ (List.getElem?_mem hi))
  obtain ⟨cy, hcy, hn⟩ := List.mem_map.mp hmem
  obtain ⟨p, hp⟩ := List.getElem?_of_mem hcy
  exact ⟨p, cy, hp, hn⟩

/-- C17 (as amended). Take two `UPDATE` statements that agree except for the
order of their `SET` clauses, with distinct column names, every `SET` value a
bind variable, no column at the same position in both, and no bind variable
before the `SET` list, so that the value of the first, second, ... clause of
the actual statement is `:v1, :v2, ...`. The matcher returns the shuffle
signal; its map sends every position `i` of the expected statement to the
position of the same column in the actual statement, and is a bijection of
`[0, n)`. -/
theorem fully_displaced_shuffle (R : RegexpPkg) (P : SqlParserPkg)
    (expectedSQL actualSQL : String) (expected actual : Update)
    (es as : List UpdateExpr)
    (he : P.Parse expectedSQL = .ok (.Update expected))
    (ha : P.Parse actualSQL = .ok (.Update actual))
    (hes : expected.Exprs = es.map some) (has : actual.Exprs = as.map some)
    (hC : expected.Comments = actual.Comments) (hT : expected.TableExprs = actual.TableExprs)
    (hW : expected.Where = actual.Where) (hO : expected.OrderBy = actual.OrderBy)
    (hL : expected.Limit = actual.Limit)
    (hnonempty : es ≠ [])
    (hperm : (es.map (fun c => c.Name)).Perm (as.map (fun c => c.Name)))
    (hna : (as.map (fun c => c.Name.Name)).Nodup)
    (hdisp : ∀ (i : Nat) (ce ca : UpdateExpr), es[i]? = some ce → as[i]? = some ca →
      ca.Name.Name ≠ ce.Name.Name)
    (hvalE : ∀ (i : Nat) (ce : UpdateExpr), es[i]? = some ce →
      ∃ val, ce.Expr = .SQLVal .ValArg val)
    (hvalA : ∀ (p : Nat) (ca : UpdateExpr), as[p]? = some ca →
      ca.Expr = .SQLVal .ValArg (":v" ++ toString ((p : Int) + 1))) :
    ∃ S : GoMap Int Int,
      QueryMatcherSqlParser R P expectedSQL actualSQL = .ok (some (.errShuffle ⟨S⟩)) ∧
      (∀ (i : Nat) (ce : UpdateExpr), es[i]? = some ce →
        ∃ (p : Nat) (ca : UpdateExpr), as[p]? = some ca ∧ ca.Name = ce.Name ∧
          GoMap.get S (i : Int) = some (p : Int)) ∧
      (∀ k v, GoMap.get S k = some v →
        0 ≤ k ∧ k < (es.length : Int) ∧ 0 ≤ v ∧ v < (es.length : Int)) ∧
      (∀ i j v, GoMap.get S i = some v → GoMap.get S j = some v → i = j) ∧
      (∀ p : Nat, p < es.length →
        ∃ i : Nat, i < es.length ∧ GoMap.get S (i : Int) = some (p : Int)) := by
  have hlen : es.length = as.length := by
    have := hperm.length_eq
    simpa using this
  have hne : (es.map (fun c => c.Name.Name)).Nodup := by
    have h1 : ((es.map (fun c => c.Name)).map (fun n => n.Name)).Perm
        ((as.map (fun c => c.Name)).map (fun n => n.Name)) := hperm.map _
    simp only [List.map_map] at h1
    exact h1.nodup_iff.mpr hna
  obtain ⟨pos, hpos, hA, hB⟩ := positions_of_nodup as hna
  have hmove : ∀ (i p : Nat) (ce ca : UpdateExpr), es[i]? = some ce → as[p]? = some ca →
      ca.Name = ce.Name → moveOf pos (0 + i) ce = some (p : Int) := by
    intro i p ce ca hi hp hn
    rw [moveOf_eq_some]
    obtain ⟨val, hval⟩ := hvalE i ce hi
    refine ⟨?_, ?_, _, val, hval⟩
    · rw [← hn]
      exact hA p ca hp
    · simp only [Nat.zero_add, ne_eq, Nat.cast_inj]
      intro hip
      subst hip
      exact hdisp i ce ca hi hp (by rw [hn])
  have hmoved : ∀ (j : Nat) (c : UpdateExpr) (v : Int), es[j]? = some c →
      moveOf pos (0 + j) c = some v →
      ∃ (p : Nat) (ca : UpdateExpr), v = (p : Int) ∧ as[p]? = some ca ∧
        ca.Name.Name = c.Name.Name := by
    intro j c v _ hm
    obtain ⟨hg, _, _⟩ := (moveOf_eq_some pos _ c v).mp hm
    obtain ⟨p, ca, hp, hn, hv⟩ := hB _ v hg
    exact ⟨p, ca, hv, hp, hn⟩
  have hrange : ∀ (j' : Nat) (c : UpdateExpr) (v : Int), es[j']? = some c →
      moveOf pos (0 + j') c = some v →
      0 ≤ v ∧ v < (((List.replicate es.length (none : Option UpdateExpr)).length : Nat) : Int) := by
    intro j' c v hj' hm
    obtain ⟨p, ca, hv, hp, _⟩ := hmoved j' c v hj' hm
    have hlt : p < as.length := (List.getElem?_eq_some_iff.mp hp).1
    simp only [List.length_replicate]
    omega
  obtain ⟨st, hst, hlenst, hsh, _, hset, hfrom, _, hlast⟩ := clauseLoop_spec pos es 0
    { shuffled := false, shuffle := [],
      expectedSetClause := List.replicate es.length none } hrange
  simp only [List.length_replicate] at hlenst
  have hshuffled : st.shuffled = true := by
    apply hsh.mpr
    right
    cases hes0 : es with
    | nil => exact absurd hes0 hnonempty
    | cons c rest =>
      have h0 : es[0]? = some c := by rw [hes0]; simp
      obtain ⟨p, ca, hp, hn⟩ := find_column es as hperm 0 c h0
      refine ⟨0, c, by simp, ?_⟩
      rw [hmove 0 p c ca h0 hp hn]
      rfl
  have hslots : st.expectedSetClause = as.map some := by
    apply List.ext_getElem?
    intro p
    by_cases hlt : p < as.length
    · have hp : as[p]? = some as[p] := List.getElem?_eq_getElem hlt
      obtain ⟨i, ce, hi, hn⟩ := find_column as es hperm.symm p as[p] hp
      have hm := hmove i p ce as[p] hi hp hn.symm
      have := hlast i ce (p : Int) hi hm (by
        intro j' c' hij' hj' hm'
        obtain ⟨p', ca', hv, hp', hn'⟩ := hmoved j' c' (p : Int) hj' hm'
        have hpp : p' = p := by omega
        subst hpp
        rw [hp] at hp'
        have hca : as[p'] = ca' := Option.some.inj hp'
        have heq : c'.Name.Name = ce.Name.Name := by rw [← hn', ← hca, hn]
        have := index_unique (fun c => c.Name.Name) es j' i c' ce hne hj' hi heq
        omega)
      simp only [Int.toNat_ofNat] at this
      rw [this, List.getElem?_map, hp]
      simp only [Option.map_some', Option.some.injEq]
      obtain ⟨val, hE⟩ := hvalE i ce hi
      have hEa := hvalA p as[p] hp
      unfold rewritten
      rw [hE]
      simp only
      cases hca : as[p] with
      | mk aName aExpr =>
        rw [hca] at hn hEa
        simp only at hn hEa
        rw [hn, hEa]
    · have h1 : st.expectedSetClause.length ≤ p := by omega
      have h2 : (as.map some).length ≤ p := by simp; omega
      rw [List.getElem?_eq_none h1, List.getElem?_eq_none h2]
  have hsame : ({ expected with Exprs := st.expectedSetClause } : Update) = actual := by
    cases expected
    cases actual
    simp only at hC hT hW hO hL has
    simp only [hslots, hC, hT, hW, hO, hL, has]
  obtain ⟨text, htext⟩ := UpdateExprs_Format_ok P as ""
  have hfmt : Update.Format P actual
      = .ok ("update " ++ actual.Comments ++ actual.TableExprs ++ " set " ++ text
        ++ actual.Where ++ actual.OrderBy ++ actual.Limit) := by
    unfold Update.Format
    rw [has, htext]
  have hentry : ∀ k v, GoMap.get st.shuffle k = some v →
      ∃ (j p : Nat) (ce ca : UpdateExpr), k = (j : Int) ∧ v = (p : Int) ∧
        es[j]? = some ce ∧ as[p]? = some ca ∧ ca.Name.Name = ce.Name.Name := by
    intro k v hkv
    rcases hfrom k v hkv with h | ⟨j, c, hj, hk, hm⟩
    · simp [GoMap.get] at h
    · obtain ⟨p, ca, hv, hp, hn⟩ := hmoved j c v hj hm
      exact ⟨j, p, c, ca, by simpa using hk, hv, hj, hp, hn⟩
  refine ⟨st.shuffle, ?_, ?_, ?_, ?_, ?_⟩
  · unfold QueryMatcherSqlParser
    rw [he, ha]
    simp only
    rw [if_pos (by rw [hes, has]; simpa using hlen)]
    unfold structuralMatch
    rw [has, hpos]
    simp only
    rw [hes, List.length_map, hst]
    simp only [hshuffled, if_true]
    rw [hsame, hfmt]
    simp
  · intro i ce hi
    obtain ⟨p, ca, hp, hn⟩ := find_column es as hperm i ce hi
    refine ⟨p, ca, hp, hn, ?_⟩
    have := hset i ce (p : Int) hi (hmove i p ce ca hi hp hn)
    simpa using this
  · intro k v hkv
    obtain ⟨j, p, ce, ca, hk, hv, hj, hp, _⟩ := hentry k v hkv
    have h1 : j < es.length := (List.getElem?_eq_some_iff.mp hj).1
    have h2 : p < as.length := (List.getElem?_eq_some_iff.mp hp).1
    omega
  · intro i j v hi hj
    obtain ⟨ji, p, ce, ca, hk, hv, hje, hp, hn⟩ := hentry i v hi
    obtain ⟨jj, p', ce', ca', hk', hv', hje', hp', hn'⟩ := hentry j v hj
    have hpp : p = p' := by omega
    subst hpp
    rw [hp] at hp'
    have hca : ca = ca' := Option.some.inj hp'
    subst hca
    have := index_unique (fun c => c.Name.Name) es ji jj ce ce' hne hje hje'
      (by simp only; rw [← hn, ← hn'])
    rw [hk, hk', this]
  · intro p hp
    have hlt : p < as.length := by omega
    have hpa : as[p]? = some as[p] := List.getElem?_eq_getElem hlt
    obtain ⟨i, ce, hi, hn⟩ := find_column as es hperm.symm p as[p] hpa
    refine ⟨i, (List.getElem?_eq_some_iff.mp hi).1, ?_⟩
    have := hset i ce (p : Int) hi (hmove i p ce as[p] hi hpa hn.symm)
    simpa using this

/-- C17, witness: two clauses exchanged. -/
theorem fully_displaced_shuffle_witness :
    ∃ S : GoMap Int Int,
      QueryMatcherSqlParser stdRegexp refSqlParser
          "UPDATE t SET a = ?, b = ? WHERE id = ?" "UPDATE t SET b = ?, a = ? WHERE id = ?"
        = .ok (some (.errShuffle ⟨S⟩)) ∧
      (∀ i j v, GoMap.get S i = some v → GoMap.get S j = some v → i = j) ∧
      (∀ p : Nat, p < 2 → ∃ i : Nat, i < 2 ∧ GoMap.get S (i : Int) = some (p : Int)) := by
  obtain ⟨S, h1, _, _, h4, h5⟩ :=
    fully_displaced_shuffle stdRegexp refSqlParser
      "UPDATE t SET a = ?, b = ? WHERE id = ?" "UPDATE t SET b = ?, a = ? WHERE id = ?"
      { Comments := "", TableExprs := "t",
        Exprs := [some ⟨⟨"a", ""⟩, .SQLVal .ValArg ":v1"⟩, some ⟨⟨"b", ""⟩, .SQLVal .ValArg ":v2"⟩],
        Where := " where id = :v3", OrderBy := "", Limit := "" }
      { Comments := "", TableExprs := "t",
        Exprs := [some ⟨⟨"b", ""⟩, .SQLVal .ValArg ":v1"⟩, some ⟨⟨"a", ""⟩, .SQLVal .ValArg ":v2"⟩],
        Where := " where id = :v3", OrderBy := "", Limit := "" }
      [⟨⟨"a", ""⟩, .SQLVal .ValArg ":v1"⟩, ⟨⟨"b", ""⟩, .SQLVal .ValArg ":v2"⟩]
      [⟨⟨"b", ""⟩, .SQLVal .ValArg ":v1"⟩, ⟨⟨"a", ""⟩, .SQLVal .ValArg ":v2"⟩]
      (by decide) (by decide) rfl rfl rfl rfl rfl rfl rfl (by decide) (by decide) (by decide)
      (by
        intro i ce ca h1 h2
        match i with
        | 0 =>
          simp only [List.getElem?_cons_zero, Option.some.injEq] at h1 h2
          subst h1 h2
          decide
        | 1 =>
          simp only [List.getElem?_cons_succ, List.getElem?_cons_zero, Option.some.injEq] at h1 h2
          subst h1 h2
          decide
        | n + 2 => simp at h1)
      (by
        intro i ce h1
        match i with
        | 0 =>
          simp only [List.getElem?_cons_zero, Option.some.injEq] at h1
          subst h1
          exact ⟨_, rfl⟩
        | 1 =>
          simp only [List.getElem?_cons_succ, List.getElem?_cons_zero, Option.some.injEq] at h1
          subst h1
          exact ⟨_, rfl⟩
        | n + 2 => simp at h1)
      (by
        intro i ce h1
        match i with
        | 0 =>
          simp only [List.getElem?_cons_zero, Option.some.injEq] at h1
          subst h1
          decide
        | 1 =>
          simp only [List.getElem?_cons_succ, List.getElem?_cons_zero, Option.some.injEq] at h1
          subst h1
          decide
        | n + 2 => simp at h1)
  exact ⟨S, h1, h4, h5⟩

/-- C17, counterexample: a bind variable in the join condition precedes the
`SET` list, so the tokenizer names the `SET` values `:v2` and `:v3`, while line
111 names the moved clauses `:v1` and `:v2` after their new positions. The two
statements agree except for the order of their `SET` clauses, the columns are
distinct, every value is a `?`, and both clauses change position; yet the
renderings differ, the matcher falls back to the regular-expression
strategy, and the result is a mismatch error, not the shuffle signal. -/
theorem fully_displaced_shuffle_counterexample :
    refSqlParser.Parse "UPDATE a JOIN b ON k = ? SET x = ?, y = ?" = .ok (.Update
      { Comments := "", TableExprs := "a join b on k = :v1",
        Exprs := [some ⟨⟨"x", ""⟩, .SQLVal .ValArg ":v2"⟩, some ⟨⟨"y", ""⟩, .SQLVal .ValArg ":v3"⟩],
        Where := "", OrderBy := "", Limit := "" }) ∧
    refSqlParser.Parse "UPDATE a JOIN b ON k = ? SET y = ?, x = ?" = .ok (.Update
      { Comments := "", TableExprs := "a join b on k = :v1",
        Exprs := [some ⟨⟨"y", ""⟩, .SQLVal .ValArg ":v2"⟩, some ⟨⟨"x", ""⟩, .SQLVal .ValArg ":v3"⟩],
        Where := "", OrderBy := "", Limit := "" }) ∧
    QueryMatcherSqlParser stdRegexp refSqlParser
        "UPDATE a JOIN b ON k = ? SET x = ?, y = ?" "UPDATE a JOIN b ON k = ? SET y = ?, x = ?"
      = .ok (some (.errorString
          ("could not match actual sql: \"UPDATE a JOIN b ON k = ? SET y = ?, x = ?\" "
            ++ "with expected regexp \"UPDATE a JOIN b ON k = ? SET x = ?, y = ?\""))) := by
  decide

end Sqlmock
